import Mathlib

/-!
Verification of the HNSW vector-database repository.

The development shallowly embeds the two source units:
* the HNSW header (class `HNSW`: `addPoint`, `searchKnn`, `searchLayer`,
  `pruneConnections`, `getRandomLayer`, `L2Sqr`), and
* the store and CLI (`VectorDB` with `addVector`, `getVector`,
  `updateVector`, `deleteVector`, `rebuildIndex`, `search`, `init`,
  `load`, `save`, and the command-line `main`).

Modelling conventions:
* `float` is modelled by `ℚ` (squared L2 distances are exact rational
  arithmetic on the inputs used).
* A C++ `std::priority_queue` over `pair<float, int>` is modelled as the
  multiset of its entries (a plain list); `top` is the lexicographic
  maximum (or minimum for the `std::greater` queues).  The C++ code
  observes a queue only through `top`/`pop`/`push`/`size`/`empty`, and
  the lexicographic order on pairs is total, so the model is faithful.
* The private `std::default_random_engine` is modelled by the list
  `gen` of uniform(0,1) draws it produces, and the irrational constant
  `ml = 1 / ln M` computed in the constructor is carried as a rational
  parameter `ml` (only comparisons `u < ml` matter).
* Loops whose bound is not structural use explicit fuel chosen at least
  as large as the number of iterations the C++ loop can perform.
-/

namespace HnswDB

/-! ### Pair order used by the C++ priority queues -/

/-- Lexicographic maximum of two `(distance, id)` pairs, the order used by
`std::priority_queue<std::pair<float, T>>`. -/
def pairMax {α : Type} [LinearOrder α] (a b : ℚ × α) : ℚ × α :=
  if a.1 < b.1 ∨ (a.1 = b.1 ∧ a.2 < b.2) then b else a

/-- Lexicographic minimum of two `(distance, id)` pairs, the order used by
the `std::greater` priority queues. -/
def pairMin {α : Type} [LinearOrder α] (a b : ℚ × α) : ℚ × α :=
  if a.1 < b.1 ∨ (a.1 = b.1 ∧ a.2 < b.2) then a else b

/-- `top` of a max-heap: the lexicographically largest entry. -/
def heapMax {α : Type} [LinearOrder α] : List (ℚ × α) → Option (ℚ × α)
  | [] => none
  | x :: xs => some (xs.foldl pairMax x)

/-- `top` of a min-heap: the lexicographically smallest entry. -/
def heapMin {α : Type} [LinearOrder α] : List (ℚ × α) → Option (ℚ × α)
  | [] => none
  | x :: xs => some (xs.foldl pairMin x)

/-- `top` of a max-heap with a junk default for the (unreachable) empty case. -/
def heapMaxD {α : Type} [LinearOrder α] [Inhabited α] (l : List (ℚ × α)) : ℚ × α :=
  match heapMax l with
  | some t => t
  | none => (0, default)

/-- `pop`: remove one occurrence of an entry from a heap. -/
def removeOne {α : Type} [DecidableEq α] (t : ℚ × α) : List (ℚ × α) → List (ℚ × α)
  | [] => []
  | y :: ys => if y = t then ys else y :: removeOne t ys

/-! ### The node record (`HNSW::Node`) -/

/-- `HNSW::Node`: an owned copy of the vector data, the external label, and
the per-layer adjacency `friends[layer]`. -/
structure Node where
  data : List ℚ
  label : Int
  friends : List (List Nat)

instance : Inhabited Node := ⟨⟨[], 0, []⟩⟩

/-- Read `friends[l]`, empty when the adjacency does not extend to layer `l`
(the C++ code always guards the access with `friends.size() > l` or grows the
vector first, so `getD` is the uniform faithful view). -/
def friendsAt (n : Node) (l : Nat) : List Nat := n.friends.getD l []

/-- `Node::addNeighbor`: resize `friends` to `layer + 1` if needed (the new
slots are empty lists), then push `neighbor_id` onto `friends[layer]`. -/
def Node.addNeighbor (n : Node) (layer : Nat) (neighbor_id : Nat) : Node :=
  let fr := if n.friends.length ≤ layer
    then n.friends ++ List.replicate (layer + 1 - n.friends.length) []
    else n.friends
  { n with friends := fr.set layer (fr.getD layer [] ++ [neighbor_id]) }

/-- `nodes_[i]` (the C++ code only indexes in bounds; out of range yields the
default node, whose adjacency is empty). -/
def getNode (nodes : List Node) (i : Nat) : Node := nodes.getD i default

/-- In-place mutation of `nodes_[i]`. -/
def updateNode (nodes : List Node) (i : Nat) (f : Node → Node) : List Node :=
  match nodes[i]? with
  | some n => nodes.set i (f n)
  | none => nodes

/-! ### Distance (`HNSW::L2Sqr`) -/

/-- `HNSW::L2Sqr`: sum over `i < dim` of `(a[i] - b[i])^2`. -/
def L2Sqr (dim : Nat) (a b : List ℚ) : ℚ :=
  ((List.range dim).map (fun i => (a.getD i 0 - b.getD i 0) * (a.getD i 0 - b.getD i 0))).sum

/-- `HNSW::dist(q, node_id, layer)` — the layer argument is unused in the
source as well. -/
def nodeDist (nodes : List Node) (dim : Nat) (q : List ℚ) (i : Nat) : ℚ :=
  L2Sqr dim q (getNode nodes i).data

/-! ### `HNSW::searchLayer` -/

/-- `W.top().first` for the nonempty result max-heap `W` (the C++ loop keeps
`W` nonempty throughout; the default is unreachable). -/
def wTopDist {α : Type} [LinearOrder α] (W : List (ℚ × α)) : ℚ :=
  match heapMax W with
  | some t => t.1
  | none => 0

/-- Body of the `for (int e : nodes_[c].friends[l])` loop of
`HNSW::searchLayer`: skip visited `e`; otherwise mark it visited, and if
`d_e < W.top().first || W.size() < ef` push `(d_e, e)` into `W` and `C`,
evicting the farthest element of `W` when `W.size() > ef`. -/
def searchStep (nodes : List Node) (dim : Nat) (q : List ℚ) (ef : Nat)
    (acc : List (ℚ × Nat) × List (ℚ × Nat) × List Nat) (e : Nat) :
    List (ℚ × Nat) × List (ℚ × Nat) × List Nat :=
  match acc with
  | (W, C, visited) =>
    if e ∈ visited then (W, C, visited)
    else
      let visited1 := e :: visited
      let d_e := nodeDist nodes dim q e
      if d_e < wTopDist W ∨ W.length < ef then
        let W1 := (d_e, e) :: W
        let C1 := (d_e, e) :: C
        if ef < W1.length then
          (removeOne (heapMaxD W1) W1, C1, visited1)
        else
          (W1, C1, visited1)
      else
        (W, C, visited1)

/-- Main loop of `HNSW::searchLayer`: pop the closest candidate `c` from `C`;
stop when `C` is exhausted or `W.top().first < dist(q, c, l)` (the popped
`c == -1` guard of the source is unreachable, ids being naturals); otherwise
expand the layer-`l` neighbours of `c` (none when the adjacency of `c` does
not extend to layer `l`).  The fuel bounds the number of pops, which the C++
loop bounds by the number of pushes into `C`. -/
def searchLoop (nodes : List Node) (dim : Nat) (q : List ℚ) (ef l : Nat) :
    Nat → List (ℚ × Nat) → List (ℚ × Nat) → List Nat → List (ℚ × Nat)
  | 0, W, _, _ => W
  | Nat.succ fuel, W, C, visited =>
    match heapMin C with
    | none => W
    | some c =>
      let C1 := removeOne c C
      if wTopDist W < nodeDist nodes dim q c.2 then W
      else
        let s := (friendsAt (getNode nodes c.2) l).foldl (searchStep nodes dim q ef)
          (W, C1, visited)
        searchLoop nodes dim q ef l fuel s.1 s.2.1 s.2.2

/-- Total number of adjacency entries, used to size the fuel of the search
loop: each loop iteration pops one entry of `C`, and every push into `C` is
guarded by the visited set, so iterations never exceed `1 + totalEdges`. -/
def totalEdges (nodes : List Node) : Nat :=
  (nodes.map (fun n => (n.friends.map List.length).sum)).sum

/-- `HNSW::searchLayer(q, ep, ef, l)`: returns the result max-heap `W`. -/
def searchLayer (nodes : List Node) (dim : Nat) (q : List ℚ) (ep ef l : Nat) :
    List (ℚ × Nat) :=
  let d0 := nodeDist nodes dim q ep
  searchLoop nodes dim q ef l (nodes.length + totalEdges nodes + 2) [(d0, ep)] [(d0, ep)] [ep]

/-! ### `HNSW::getRandomLayer` -/

/-- `HNSW::getRandomLayer`: starting from `l = 0`, repeatedly draw `u` from
the engine and increment `l` while `u < ml && l < 16`.  Consumes one draw per
loop test (matching the short-circuit evaluation in the source); an exhausted
model stream behaves like a draw `≥ ml`. -/
def getRandomLayer (ml : ℚ) : Nat → List ℚ → Nat × List ℚ
  | l, [] => (l, [])
  | l, u :: us =>
    if u < ml then
      if l < 16 then getRandomLayer ml (l + 1) us else (l, us)
    else (l, us)

/-! ### `HNSW::pruneConnections` -/

/-- Drain of the min-heap in `HNSW::pruneConnections`: keep popping the
closest connection into the rebuilt `friends[layer]` while its size is below
`M_max` and connections remain. -/
def drainMinAcc (Mmax : Nat) : Nat → List (ℚ × Nat) → List Nat → List Nat
  | 0, _, acc => acc
  | Nat.succ fuel, conns, acc =>
    if acc.length < Mmax then
      match heapMin conns with
      | none => acc
      | some t => drainMinAcc Mmax fuel (removeOne t conns) (acc ++ [t.2])
    else acc

/-- `HNSW::pruneConnections(node_id, layer, M_max)`: recompute the distance
from `node_id` to each of its current layer-`layer` friends, clear the list,
and keep only the `M_max` closest (ascending by `(distance, id)`). -/
def pruneConnections (nodes : List Node) (dim : Nat) (node_id layer Mmax : Nat) :
    List Node :=
  let nd := getNode nodes node_id
  let conns := (friendsAt nd layer).map
    (fun neighbor_id => (L2Sqr dim nd.data (getNode nodes neighbor_id).data, neighbor_id))
  let kept := drainMinAcc Mmax conns.length conns []
  updateNode nodes node_id (fun n => { n with friends := n.friends.set layer kept })

/-! ### `HNSW::addPoint` -/

/-- `M_max` as computed per layer inside `HNSW::addPoint`:
`(lc == 0) ? M_max0_ : M_`. -/
def layerMmax (M M_max0 lc : Nat) : Nat := if lc = 0 then M_max0 else M

/-- The `SELECT-NEIGHBORS` loop of `HNSW::addPoint`: pop entries from the
candidate heap `W` into `neighbors` while `neighbors.size() < M` and `W` is
nonempty.  `W` is a max-heap, so each pop yields its farthest entry. -/
def selectNeighbors (M : Nat) : Nat → List (ℚ × Nat) → List (ℚ × Nat) → List (ℚ × Nat)
  | 0, _, neighbors => neighbors
  | Nat.succ fuel, W, neighbors =>
    if neighbors.length < M then
      match heapMax W with
      | none => neighbors
      | some t => selectNeighbors M fuel (removeOne t W) (t :: neighbors)
    else neighbors

/-- The `while (!neighbors.empty())` loop of `HNSW::addPoint`: pop the top of
the `neighbors` max-heap, add the edge in both directions at layer `lc`, and
prune the neighbour when its adjacency exceeds `M_max`. -/
def connectNeighbors (dim lc Mmax id : Nat) :
    Nat → List (ℚ × Nat) → List Node → List Node
  | 0, _, nodes => nodes
  | Nat.succ fuel, neighbors, nodes =>
    match heapMax neighbors with
    | none => nodes
    | some t =>
      let neighbor_id := t.2
      let neighbors1 := removeOne t neighbors
      let nodes1 := updateNode nodes id (fun n => n.addNeighbor lc neighbor_id)
      let nodes2 := updateNode nodes1 neighbor_id (fun n => n.addNeighbor lc id)
      let nodes3 :=
        if Mmax < (friendsAt (getNode nodes2 neighbor_id) lc).length then
          pruneConnections nodes2 dim neighbor_id lc Mmax
        else nodes2
      connectNeighbors dim lc Mmax id fuel neighbors1 nodes3

/-- One iteration of the linking loop of `HNSW::addPoint` at layer `lc`:
compute `W = searchLayer(p, ep, ef_construction, lc)`, select up to `M`
entries from it, and connect them to the new node `id`. -/
def linkAtLayer (dim M M_max0 ef_construction : Nat) (p : List ℚ) (id ep lc : Nat)
    (nodes : List Node) : List Node :=
  let Mmax := layerMmax M M_max0 lc
  let W := searchLayer nodes dim p ep ef_construction lc
  let neighbors := selectNeighbors M (M + W.length) W []
  connectNeighbors dim lc Mmax id neighbors.length neighbors nodes

/-- The `for (int lc = std::min(l, L_); lc >= 0; --lc)` linking loop of
`HNSW::addPoint` (the saved `ep_label` makes `ep` identical at every layer in
the source, so `ep` is simply fixed here). -/
def linkLoop (dim M M_max0 ef_construction : Nat) (p : List ℚ) (id ep : Nat) :
    Nat → List Node → List Node
  | 0, nodes => linkAtLayer dim M M_max0 ef_construction p id ep 0 nodes
  | Nat.succ lc, nodes =>
    linkLoop dim M M_max0 ef_construction p id ep lc
      (linkAtLayer dim M M_max0 ef_construction p id ep (Nat.succ lc) nodes)

/-- The greedy descent `ep = searchLayer(q, ep, 1, lc).top().second` for `lc`
from the current top layer down to `l + 1` (`HNSW::addPoint`) or down to `1`
(`HNSW::searchKnn`, with `l = 0`).  `top` of the max-heap result is its
farthest entry; with `ef = 1` the heap is a singleton. -/
def descentLoop (nodes : List Node) (dim : Nat) (q : List ℚ) (l : Nat) :
    Nat → Nat → Nat
  | 0, ep => ep
  | Nat.succ lc, ep =>
    if l < Nat.succ lc then
      descentLoop nodes dim q l lc
        (heapMaxD (searchLayer nodes dim q ep 1 (Nat.succ lc))).2
    else ep

/-! ### The `HNSW` class -/

/-- The `HNSW` class state.  `ml` stands for the constructor's
`1.0 / log(M)` (carried as a rational parameter), `gen` for the stream of
uniform(0,1) draws of the default-seeded `std::default_random_engine`,
`L` for `L_` (current max layer) and `enter_point = none` for
`enter_point_ == -1`. -/
structure HNSW where
  dim : Nat
  max_elements : Nat
  M : Nat
  M_max0 : Nat
  ef_construction : Nat
  ml : ℚ
  L : Nat
  enter_point : Option Nat
  gen : List ℚ
  nodes : List Node

/-- The `HNSW` constructor.  The C++ signature is
`HNSW(dim, max_elements, M = 16, M_max0 = 32, ef_construction = 200)`;
defaults are supplied explicitly at each call site of the model. -/
def HNSW.new (dim max_elements M M_max0 ef_construction : Nat) (ml : ℚ)
    (gen : List ℚ) : HNSW :=
  { dim := dim, max_elements := max_elements, M := M, M_max0 := M_max0
    ef_construction := ef_construction, ml := ml, L := 0, enter_point := none
    gen := gen, nodes := [] }

/-- `HNSW::addPoint(p, label)`: append the node, draw its layer, raise `L_`
if needed, make the node the entry point when the graph was empty, otherwise
descend greedily to layer `l + 1` and link at layers `min(l, L_)` down
to `0`. -/
def HNSW.addPoint (st : HNSW) (p : List ℚ) (label : Int) : HNSW :=
  let id := st.nodes.length
  let nodes1 := st.nodes ++ [{ data := p.take st.dim, label := label, friends := [] }]
  let drawn := getRandomLayer st.ml 0 st.gen
  let l := drawn.1
  let L1 := if st.L < l then l else st.L
  match st.enter_point with
  | none =>
    { st with nodes := nodes1, gen := drawn.2, L := L1, enter_point := some id }
  | some ep0 =>
    let ep1 := descentLoop nodes1 st.dim p l L1 ep0
    let nodes2 := linkLoop st.dim st.M st.M_max0 st.ef_construction p id ep1
      (min l L1) nodes1
    { st with nodes := nodes2, gen := drawn.2, L := L1 }

/-- `HNSW::searchKnn(q, k)`: empty result on an empty index; otherwise greedy
descent from `L_` down to layer `1`, then a layer-0 search with `ef = k`,
whose whole result is returned with internal ids translated to external
labels. -/
def HNSW.searchKnn (st : HNSW) (q : List ℚ) (k : Nat) : List (ℚ × Int) :=
  match st.enter_point with
  | none => []
  | some ep0 =>
    let ep := descentLoop st.nodes st.dim q 0 st.L ep0
    let W := searchLayer st.nodes st.dim q ep k 0
    W.map (fun t => (t.1, (getNode st.nodes t.2).label))

/-- Folding `HNSW::addPoint` over a list of `(vector, label)` pairs. -/
def buildHNSW (st : HNSW) (inserts : List (List ℚ × Int)) : HNSW :=
  inserts.foldl (fun s pi => s.addPoint pi.1 pi.2) st

end HnswDB

namespace HnswDB

/-! ### The record store (`VectorDB`) and the CLI (`main`)

`VectorDB` persists `{dim, nextId, vectors}` in a JSON document and owns an
optional in-memory `HNSW` index.  `std::map<long long, VectorData>` is
modelled as an association list sorted by key (the iteration order the C++
code relies on when assigning internal labels).  The external JSON library
and the filesystem are collaborators: parsing failures and the state of the
single database file are modelled explicitly. -/

/-- `VectorData`: id, raw vector, opaque metadata (a JSON document, opaque to
the repository, modelled as its text). -/
structure VectorData where
  id : Int
  vec : List ℚ
  metadata : String

/-- Lookup in the `std::map` model. -/
def mapLookup (vs : List (Int × VectorData)) (id : Int) : Option VectorData :=
  match vs.find? (fun kv => kv.1 = id) with
  | some kv => some kv.2
  | none => none

/-- `vs[id] = d` in the `std::map` model: insert keeping keys ascending,
replacing an existing binding. -/
def mapInsert (vs : List (Int × VectorData)) (id : Int) (d : VectorData) :
    List (Int × VectorData) :=
  match vs with
  | [] => [(id, d)]
  | kv :: rest =>
    if id < kv.1 then (id, d) :: kv :: rest
    else if id = kv.1 then (id, d) :: rest
    else kv :: mapInsert rest id d

/-- `vs.erase(id)` in the `std::map` model. -/
def mapErase (vs : List (Int × VectorData)) (id : Int) : List (Int × VectorData) :=
  match vs with
  | [] => []
  | kv :: rest => if kv.1 = id then rest else kv :: mapErase rest id

/-- The `VectorDB` state: dimension, next id, the record map, and the
in-memory index (`hnsw_index`, null before the first rebuild). -/
structure VectorDB where
  dim : Nat
  nextId : Int
  vectors : List (Int × VectorData)
  index : Option HNSW

/-- A freshly constructed `VectorDB` (the constructor body sets `dim = 0`,
`nextId = 0` and leaves `hnsw_index` null). -/
def freshDB : VectorDB := { dim := 0, nextId := 0, vectors := [], index := none }

/-- Error message of `VectorDB::addVector` / `VectorDB::updateVector`. -/
def vecDimMismatchMsg : String := "Vector dimension mismatch."

/-- Error message of `VectorDB::search` on a query of the wrong length. -/
def queryDimMismatchMsg : String := "Query vector dimension mismatch."

/-- Error message of `VectorDB::search` before any rebuild. -/
def indexNotBuiltMsg : String := "Index is not built. Run rebuild first."

/-- Error message of `VectorDB::init` when the database file exists. -/
def dbExistsMsg : String := "Database file already exists. Cannot initialize."

/-- Error message of `VectorDB::load` on an unparsable database file. -/
def jsonErrorMsg : String := "Failed to parse database file (JSON error)."

/-- Error thrown by `std::stoi` / `std::stoll` on a non-numeric argument. -/
def stoiFailMsg : String := "stoi: no conversion."

/-- Error message of `parseVector` on an item `std::stof` rejects. -/
def vecFormatMsg : String := "Invalid vector format. Must be comma-separated floats."

/-- Error message of `parseVector` when the item count differs from the
expected dimension. -/
def parseVecDimMsg : String := "Vector dimension mismatch between expected and got."

/-- `VectorDB::addVector`: reject a vector of the wrong length (before any
mutation), otherwise store it under `nextId` and bump `nextId`. -/
def VectorDB.addVector (db : VectorDB) (vec : List ℚ) (metadata : String) :
    Except String (VectorDB × Int) :=
  if vec.length ≠ db.dim then Except.error vecDimMismatchMsg
  else
    let id := db.nextId
    Except.ok
      ({ db with nextId := id + 1
                 vectors := mapInsert db.vectors id { id := id, vec := vec, metadata := metadata } },
       id)

/-- `VectorDB::getVector`: the `(VectorData, bool)` result as an `Option`. -/
def VectorDB.getVector (db : VectorDB) (id : Int) : Option VectorData :=
  mapLookup db.vectors id

/-- `VectorDB::updateVector`: `false` when the id is absent; otherwise reject
a wrong-length vector, else overwrite the record's vector and metadata. -/
def VectorDB.updateVector (db : VectorDB) (id : Int) (vec : List ℚ) (metadata : String) :
    Except String (VectorDB × Bool) :=
  match mapLookup db.vectors id with
  | none => Except.ok (db, false)
  | some old =>
    if vec.length ≠ db.dim then Except.error vecDimMismatchMsg
    else Except.ok
      ({ db with vectors := mapInsert db.vectors id { old with vec := vec, metadata := metadata } },
       true)

/-- `VectorDB::deleteVector`. -/
def VectorDB.deleteVector (db : VectorDB) (id : Int) : VectorDB × Bool :=
  match mapLookup db.vectors id with
  | none => (db, false)
  | some _ => ({ db with vectors := mapErase db.vectors id }, true)

/-- `VectorDB::rebuildIndex`: flatten the stored vectors (in map order) into
one raw float array, create a fresh `HNSW(dim, max(count, 1), 16, 200)` —
four positional arguments, so `ef_construction` keeps its default `200` —
and add each record with its internal index `0, 1, 2, …` as the label.
`ml` and `gen` stand for the constructor-computed `1/ln 16` and the
default-seeded random engine of the fresh index. -/
def VectorDB.rebuildIndex (db : VectorDB) (ml : ℚ) (gen : List ℚ) : VectorDB :=
  let raw_vector_data := (db.vectors.map (fun kv => kv.2.vec)).flatten
  let max_elements := max db.vectors.length 1
  let h0 := HNSW.new db.dim max_elements 16 200 200 ml gen
  if raw_vector_data.isEmpty then
    { db with index := some h0 }
  else
    let h := (List.range db.vectors.length).foldl
      (fun h i => h.addPoint ((raw_vector_data.drop (i * db.dim)).take db.dim) (Int.ofNat i))
      h0
    { db with index := some h }

/-- Drain a result max-heap by repeated `top`/`pop` (descending order). -/
def drainMax {α : Type} [LinearOrder α] : Nat → List (ℚ × α) → List (ℚ × α)
  | 0, _ => []
  | Nat.succ fuel, W =>
    match heapMax W with
    | none => []
    | some t => t :: drainMax fuel (removeOne t W)

/-- `VectorDB::search`: fail before any rebuild or on a wrong-length query;
otherwise run `searchKnn`, translate internal labels `0, 1, 2, …` back to
external ids through the map iteration order, dropping out-of-range labels,
and return the pairs in ascending heap-pop order (the C++ code pops the heap
and reverses). -/
def VectorDB.search (db : VectorDB) (query : List ℚ) (k : Nat) :
    Except String (List (Int × ℚ)) :=
  match db.index with
  | none => Except.error indexNotBuiltMsg
  | some h =>
    if query.length ≠ db.dim then Except.error queryDimMismatchMsg
    else
      let result_queue := h.searchKnn query k
      let internal_to_external := db.vectors.map (fun kv => kv.1)
      let drained := drainMax result_queue.length result_queue
      let results := drained.foldl (fun acc t =>
        match t.2 with
        | Int.ofNat i =>
          match internal_to_external[i]? with
          | some ext => acc ++ [(ext, t.1)]
          | none => acc
        | Int.negSucc _ => acc) []
      Except.ok results.reverse

/-- The single database file: absent, unparsable, or a parsed
`{dim, nextId, vectors}` document. -/
inductive FileState where
  | absent
  | corrupt
  | good (dim : Nat) (nextId : Int) (vectors : List (Int × VectorData))

/-- `VectorDB::save`: write `{dim, nextId, vectors}`. -/
def VectorDB.save (db : VectorDB) : FileState :=
  FileState.good db.dim db.nextId db.vectors

/-- `VectorDB::load`: a missing file is not an error (the state is left
fresh); an unparsable file throws; otherwise the fields are adopted and the
index is rebuilt. -/
def VectorDB.load (db : VectorDB) (fs : FileState) (ml : ℚ) (gen : List ℚ) :
    Except String VectorDB :=
  match fs with
  | FileState.absent => Except.ok db
  | FileState.corrupt => Except.error jsonErrorMsg
  | FileState.good d n vs =>
    Except.ok (VectorDB.rebuildIndex { db with dim := d, nextId := n, vectors := vs } ml gen)

/-- `VectorDB::init`: throw when the database file already exists; otherwise
set the dimension, start ids at 1, build the empty index and save. -/
def VectorDB.init (db : VectorDB) (fs : FileState) (dimension : Nat) (ml : ℚ)
    (gen : List ℚ) : Except String (VectorDB × FileState) :=
  match fs with
  | FileState.absent =>
    let db1 := { db with dim := dimension, nextId := 1, vectors := [] }
    let db2 := VectorDB.rebuildIndex db1 ml gen
    Except.ok (db2, db2.save)
  | _ => Except.error dbExistsMsg

/-! ### CLI argument parsing helpers -/

/-- Digit-list accumulator shared by the `std::stoll` / `std::stof` models. -/
def parseDigitsAux (acc : Nat) : List Char → Option Nat
  | [] => some acc
  | c :: cs => if c.isDigit then parseDigitsAux (acc * 10 + (c.toNat - 48)) cs else none

/-- Parse a nonempty digit string. -/
def parseDigits : List Char → Option Nat
  | [] => none
  | cs => parseDigitsAux 0 cs

/-- Parse a possibly empty digit string (empty reads as 0). -/
def parseDigits0 : List Char → Option Nat := parseDigitsAux 0

/-- Model of `std::stoll` / `std::stoi` on the arguments the CLI exercises:
an optional sign followed by digits; `none` models the exception thrown on a
non-numeric argument. -/
def cppStoll (s : String) : Option Int :=
  match s.data with
  | '-' :: t => (parseDigits t).map (fun n => -(n : Int))
  | cs => (parseDigits cs).map (fun n => (n : Int))

/-- Model of `std::stof` on plain decimal literals (optional sign, digits,
optional point and digits); `none` models the exception on the rejected
items exercised by the theorems. -/
def cppStof (s : String) : Option ℚ :=
  let p : Bool × List Char :=
    match s.data with
    | '-' :: t => (true, t)
    | cs => (false, cs)
  let ip := p.2.takeWhile (fun c => c ≠ '.')
  let rest := p.2.drop ip.length
  let v : Option ℚ :=
    match rest with
    | [] => (parseDigits ip).map (fun n => (mkRat n 1 : ℚ))
    | _ :: fp =>
      match ip, fp with
      | [], [] => none
      | _, _ =>
        match parseDigits0 ip, parseDigits0 fp with
        | some n, some m => some (mkRat n 1 + mkRat m (10 ^ fp.length))
        | _, _ => none
  v.map (fun x => if p.1 then -x else x)

/-- The comma splitting performed by `std::getline(ss, item, ',')`: no token
from an empty string, and no empty token after a trailing comma. -/
def getlineSplitAux : List Char → List Char → List String
  | acc, [] => [String.mk acc.reverse]
  | acc, c :: cs =>
    if c = ',' then
      String.mk acc.reverse ::
        (match cs with
         | [] => []
         | _ => getlineSplitAux [] cs)
    else getlineSplitAux (acc ++ [c]) cs

/-- `parseVector(s, expectedDim)`: split on commas, parse each item with
`std::stof` (any failure throws the format error), then check the length. -/
def parseVector (s : String) (expectedDim : Nat) : Except String (List ℚ) := do
  let items := match s.data with
    | [] => []
    | cs => getlineSplitAux [] cs
  let vec ← items.foldlM (fun acc item =>
    match cppStof item with
    | some v => Except.ok (acc ++ [v])
    | none => Except.error vecFormatMsg) []
  if vec.length ≠ expectedDim then Except.error parseVecDimMsg
  else Except.ok vec

/-- Model of the external `nlohmann::json::parse` call on the metadata
argument: the document stays opaque; an unparsable document (modelled by the
empty string) throws. -/
def jsonParse (s : String) : Except String String :=
  if s.data.isEmpty then Except.error jsonErrorMsg else Except.ok s

/-! ### The CLI `main` -/

def cmdInit : String := "init"

def cmdAdd : String := "add"

def cmdGet : String := "get"

def cmdSearch : String := "search"

def cmdRebuild : String := "rebuild"

def cmdDelete : String := "delete"

def cmdUpdate : String := "update"

/-- Placeholder for `argv` reads that `main` never performs out of range. -/
def emptyArg : String := ""

/-- The `try` block of `main`: dispatch on `argv[2]`.  A `return 1` in the
source (wrong argument count, unknown command) is `Except.ok 1`; a thrown
exception is `Except.error`.  Note that `get`, `delete` and `update` print a
not-found message to `cerr` but fall through to `return 0`. -/
def cliRun (ml : ℚ) (gen : List ℚ) (fs : FileState) (argv : List String) :
    Except String Nat :=
  let command := argv.getD 2 emptyArg
  if command = cmdInit then
    if argv.length ≠ 4 then Except.ok 1
    else
      match cppStoll (argv.getD 3 emptyArg) with
      | none => Except.error stoiFailMsg
      | some d => do
        let _ ← freshDB.init fs d.toNat ml gen
        Except.ok 0
  else if command = cmdAdd then
    if argv.length ≠ 5 then Except.ok 1
    else do
      let db ← freshDB.load fs ml gen
      let vec ← parseVector (argv.getD 3 emptyArg) db.dim
      let metadata ← jsonParse (argv.getD 4 emptyArg)
      let r ← db.addVector vec metadata
      let _ := r.1.save
      Except.ok 0
  else if command = cmdGet then
    if argv.length ≠ 4 then Except.ok 1
    else do
      let db ← freshDB.load fs ml gen
      match cppStoll (argv.getD 3 emptyArg) with
      | none => Except.error stoiFailMsg
      | some id =>
        match db.getVector id with
        | some _ => Except.ok 0
        | none => Except.ok 0
  else if command = cmdSearch then
    if argv.length ≠ 5 then Except.ok 1
    else do
      let db ← freshDB.load fs ml gen
      match cppStoll (argv.getD 3 emptyArg) with
      | none => Except.error stoiFailMsg
      | some k => do
        let query ← parseVector (argv.getD 4 emptyArg) db.dim
        let _ ← db.search query k.toNat
        Except.ok 0
  else if command = cmdRebuild then do
    let db ← freshDB.load fs ml gen
    let _ := db.rebuildIndex ml gen
    Except.ok 0
  else if command = cmdDelete then
    if argv.length ≠ 4 then Except.ok 1
    else do
      let db ← freshDB.load fs ml gen
      match cppStoll (argv.getD 3 emptyArg) with
      | none => Except.error stoiFailMsg
      | some id =>
        match db.deleteVector id with
        | (db1, true) =>
          let _ := db1.save
          Except.ok 0
        | (_, false) => Except.ok 0
  else if command = cmdUpdate then
    if argv.length ≠ 6 then Except.ok 1
    else do
      let db ← freshDB.load fs ml gen
      match cppStoll (argv.getD 3 emptyArg) with
      | none => Except.error stoiFailMsg
      | some id => do
        let vec ← parseVector (argv.getD 4 emptyArg) db.dim
        let metadata ← jsonParse (argv.getD 5 emptyArg)
        let r ← db.updateVector id vec metadata
        match r with
        | (db1, true) =>
          let _ := db1.save
          Except.ok 0
        | (_, false) => Except.ok 0
  else Except.ok 1

/-- `main`: usage error when fewer than three arguments; otherwise run the
dispatch, mapping any thrown exception to exit code 1. -/
def cliMain (ml : ℚ) (gen : List ℚ) (fs : FileState) (argv : List String) : Nat :=
  if argv.length < 3 then 1
  else
    match cliRun ml gen fs argv with
    | Except.ok c => c
    | Except.error _ => 1

end HnswDB

namespace HnswDB

/-! ### Graph invariants and concrete states used by the verification -/

/-- Degree bound: every adjacency list respects `M_max(L)`. -/
def degreeBounded (M M_max0 : Nat) (nodes : List Node) : Prop :=
  ∀ i L, (friendsAt (getNode nodes i) L).length ≤ layerMmax M M_max0 L

/-- Every adjacency entry names an existing node. -/
def edgesInRange (nodes : List Node) : Prop :=
  ∀ i L x, x ∈ friendsAt (getNode nodes i) L → x < nodes.length

/-- Every edge is either reciprocated or points at a node whose adjacency at
that layer sits exactly at the prune bound (the one-sided state left behind
by `pruneConnections`). -/
def symOrFull (M M_max0 : Nat) (nodes : List Node) : Prop :=
  ∀ i L x, x ∈ friendsAt (getNode nodes i) L →
    i ∈ friendsAt (getNode nodes x) L ∨
    (friendsAt (getNode nodes x) L).length = layerMmax M M_max0 L

/-- The combined graph invariant maintained by `HNSW::addPoint`. -/
def graphInv (M M_max0 : Nat) (nodes : List Node) : Prop :=
  degreeBounded M M_max0 nodes ∧ edgesInRange nodes ∧ symOrFull M M_max0 nodes

/-- The index-level invariant: the graph invariant plus a valid entry point. -/
def hnswInv (st : HNSW) : Prop :=
  graphInv st.M st.M_max0 st.nodes ∧ ∀ e, st.enter_point = some e → e < st.nodes.length

/-- A draw stream whose values `0.95` all exceed `ml = 0.91` (standing for
`1/ln 3`), keeping every node at layer 0. -/
def lowGen : List ℚ := List.replicate 10 (mkRat 95 100)

/-- Five collinear points inserted at layer 0 with `M = 3`, `M_max0 = 6`
(no pruning): the failing input of the neighbour-selection claim. -/
def c1st : HNSW :=
  buildHNSW (HNSW.new 1 10 3 6 10 (mkRat 91 100) lowGen)
    [([0], 0), ([1], 1), ([2], 2), ([3], 3), ([4], 4)]

/-- The same five points with `M_max0 = 3`: the fifth insert prunes nodes
0, 1 and 2 and leaves the one-sided edges of node 4. -/
def c2st : HNSW :=
  buildHNSW (HNSW.new 1 10 3 3 10 (mkRat 91 100) lowGen)
    [([0], 0), ([1], 1), ([2], 2), ([3], 3), ([4], 4)]

/-- A one-node index, queried with `k = 0`. -/
def c3st : HNSW := buildHNSW (HNSW.new 1 10 3 6 10 (mkRat 91 100) lowGen) [([5], 7)]

/-- Draws putting the first node at layer 0 and the second at layer 3. -/
def highGen : List ℚ := [mkRat 95 100, mkRat 1 2, mkRat 1 2, mkRat 1 2, mkRat 95 100]

/-- A one-node index at layer 0 (top layer 0). -/
def c4st1 : HNSW := buildHNSW (HNSW.new 1 10 3 6 10 (mkRat 91 100) highGen) [([0], 0)]

/-- The state after inserting a second node that draws layer 3. -/
def c4st2 : HNSW := c4st1.addPoint [1] 1

/-- A store of dimension 2 with a built (empty) index. -/
def c6db : VectorDB :=
  { dim := 2, nextId := 1, vectors := [], index := some (HNSW.new 2 1 16 200 200 0 []) }

/-- A parsed database file of dimension 2 holding no records. -/
def c9fs : FileState := FileState.good 2 1 []

/-- The id argument used in the CLI scenarios. -/
def idArg : String := "5"

end HnswDB

namespace HnswDB

/-! ### Basic lemmas about the heap and list primitives -/

theorem foldl_invariant {α β : Type _} (f : β → α → β) (P : β → Prop)
    (l : List α) (b : β) (hb : P b) (hf : ∀ b a, a ∈ l → P b → P (f b a)) :
    P (l.foldl f b) := by
  induction l generalizing b with
  | nil => exact hb
  | cons a t ih =>
    exact ih (f b a) (hf b a (List.mem_cons_self a t) hb)
      (fun b x hx hb => hf b x (List.mem_cons_of_mem a hx) hb)

theorem pairMax_eq_or {α : Type} [LinearOrder α] (a b : ℚ × α) :
    pairMax a b = a ∨ pairMax a b = b := by
  unfold pairMax; split
  · exact Or.inr rfl
  · exact Or.inl rfl

theorem pairMin_eq_or {α : Type} [LinearOrder α] (a b : ℚ × α) :
    pairMin a b = a ∨ pairMin a b = b := by
  unfold pairMin; split
  · exact Or.inl rfl
  · exact Or.inr rfl

theorem heapMax_mem {α : Type} [LinearOrder α] {l : List (ℚ × α)} {t : ℚ × α}
    (h : heapMax l = some t) : t ∈ l := by
  match l with
  | [] => simp [heapMax] at h
  | x :: xs =>
    simp only [heapMax, Option.some.injEq] at h
    subst h
    exact foldl_invariant pairMax (fun b => b ∈ x :: xs) xs x (List.mem_cons_self x xs)
      (fun b a ha hb => by
        rcases pairMax_eq_or b a with h1 | h1
        · rw [h1]; exact hb
        · rw [h1]; exact List.mem_cons_of_mem x ha)

theorem heapMin_mem {α : Type} [LinearOrder α] {l : List (ℚ × α)} {t : ℚ × α}
    (h : heapMin l = some t) : t ∈ l := by
  match l with
  | [] => simp [heapMin] at h
  | x :: xs =>
    simp only [heapMin, Option.some.injEq] at h
    subst h
    exact foldl_invariant pairMin (fun b => b ∈ x :: xs) xs x (List.mem_cons_self x xs)
      (fun b a ha hb => by
        rcases pairMin_eq_or b a with h1 | h1
        · rw [h1]; exact hb
        · rw [h1]; exact List.mem_cons_of_mem x ha)

theorem heapMaxD_mem {α : Type} [LinearOrder α] [Inhabited α] {l : List (ℚ × α)}
    (h : l ≠ []) : heapMaxD l ∈ l := by
  unfold heapMaxD
  match hm : heapMax l with
  | some t => exact heapMax_mem hm
  | none => cases l with
    | nil => exact absurd rfl h
    | cons x xs => simp [heapMax] at hm

theorem heapMax_isSome {α : Type} [LinearOrder α] {l : List (ℚ × α)} (h : l ≠ []) :
    ∃ t, heapMax l = some t := by
  cases l with
  | nil => exact absurd rfl h
  | cons x xs => exact ⟨_, rfl⟩

theorem heapMin_isSome {α : Type} [LinearOrder α] {l : List (ℚ × α)} (h : l ≠ []) :
    ∃ t, heapMin l = some t := by
  cases l with
  | nil => exact absurd rfl h
  | cons x xs => exact ⟨_, rfl⟩

theorem removeOne_subset {α : Type} [DecidableEq α] (t : ℚ × α) :
    ∀ l : List (ℚ × α), ∀ x ∈ removeOne t l, x ∈ l
  | [], x, hx => by simp [removeOne] at hx
  | y :: ys, x, hx => by
    simp only [removeOne] at hx
    split at hx
    · exact List.mem_cons_of_mem y hx
    · rcases List.mem_cons.1 hx with h | h
      · rw [h]; exact List.mem_cons_self y ys
      · exact List.mem_cons_of_mem y (removeOne_subset t ys x h)

theorem removeOne_length {α : Type} [DecidableEq α] (t : ℚ × α) :
    ∀ l : List (ℚ × α), t ∈ l → (removeOne t l).length + 1 = l.length
  | [], h => by simp at h
  | y :: ys, h => by
    simp only [removeOne]
    split
    · simp
    · rename_i hy
      have ht : t ∈ ys := by
        rcases List.mem_cons.1 h with h1 | h1
        · exact absurd h1.symm hy
        · exact h1
      simp only [List.length_cons]
      rw [← removeOne_length t ys ht]

/-! ### Lemmas about `friendsAt`, `Node.addNeighbor`, `getNode`, `updateNode` -/

theorem getD_replicate_nil : ∀ (k j : Nat), (List.replicate k ([] : List Nat)).getD j [] = []
  | 0, _ => by simp
  | _ + 1, 0 => by simp [List.replicate]
  | k + 1, j + 1 => by
    rw [List.replicate_succ, List.getD_cons_succ]
    exact getD_replicate_nil k j

theorem getD_append_replicate_nil :
    ∀ (l : List (List Nat)) (k j : Nat), (l ++ List.replicate k []).getD j [] = l.getD j []
  | [], k, j => by simp [getD_replicate_nil k j]
  | x :: l, _, 0 => by simp
  | x :: l, k, j + 1 => by simpa using getD_append_replicate_nil l k j

theorem getD_set_self {v d : List Nat} {l : List (List Nat)} {i : Nat} (h : i < l.length) :
    (l.set i v).getD i d = v := by
  simp [List.getD_eq_getElem?_getD, List.getElem?_set_self h]

theorem getD_set_ne {v d : List Nat} {l : List (List Nat)} {i j : Nat} (h : i ≠ j) :
    (l.set i v).getD j d = l.getD j d := by
  simp [List.getD_eq_getElem?_getD, List.getElem?_set_ne h]

theorem addNeighbor_pad_getD (n : Node) (layer j : Nat) :
    (if n.friends.length ≤ layer
      then n.friends ++ List.replicate (layer + 1 - n.friends.length) []
      else n.friends).getD j [] = n.friends.getD j [] := by
  split
  · exact getD_append_replicate_nil n.friends _ j
  · rfl

theorem addNeighbor_pad_lt (n : Node) (layer : Nat) :
    layer < (if n.friends.length ≤ layer
      then n.friends ++ List.replicate (layer + 1 - n.friends.length) []
      else n.friends).length := by
  split
  · rename_i h; simp; omega
  · rename_i h; omega

theorem friendsAt_addNeighbor_self (n : Node) (lc nb : Nat) :
    friendsAt (n.addNeighbor lc nb) lc = friendsAt n lc ++ [nb] := by
  unfold friendsAt Node.addNeighbor
  simp only
  rw [getD_set_self (addNeighbor_pad_lt n lc), addNeighbor_pad_getD n lc lc]

theorem friendsAt_addNeighbor_ne (n : Node) {lc L : Nat} (nb : Nat) (h : L ≠ lc) :
    friendsAt (n.addNeighbor lc nb) L = friendsAt n L := by
  unfold friendsAt Node.addNeighbor
  simp only
  rw [getD_set_ne (fun hh => h hh.symm), addNeighbor_pad_getD n lc L]

theorem addNeighbor_data (n : Node) (lc nb : Nat) : (n.addNeighbor lc nb).data = n.data := rfl

theorem addNeighbor_label (n : Node) (lc nb : Nat) : (n.addNeighbor lc nb).label = n.label := rfl

theorem updateNode_length (nodes : List Node) (i : Nat) (f : Node → Node) :
    (updateNode nodes i f).length = nodes.length := by
  unfold updateNode
  cases h : nodes[i]? <;> simp

theorem updateNode_oob {nodes : List Node} {i : Nat} (f : Node → Node)
    (h : nodes.length ≤ i) : updateNode nodes i f = nodes := by
  unfold updateNode
  rw [List.getElem?_eq_none h]

theorem getNode_updateNode_ne {nodes : List Node} {i j : Nat} (f : Node → Node)
    (h : j ≠ i) : getNode (updateNode nodes i f) j = getNode nodes j := by
  unfold updateNode getNode
  cases hn : nodes[i]? with
  | none => rfl
  | some n => simp [List.getD_eq_getElem?_getD, List.getElem?_set_ne (fun hh => h hh.symm)]

theorem getNode_updateNode_self {nodes : List Node} {i : Nat} (f : Node → Node)
    (h : i < nodes.length) : getNode (updateNode nodes i f) i = f (getNode nodes i) := by
  unfold updateNode getNode
  rw [List.getElem?_eq_getElem h]
  simp [List.getD_eq_getElem?_getD, List.getElem?_set_self, h, List.getElem?_eq_getElem]

theorem getNode_append (nodes : List Node) (nd : Node) (j : Nat) :
    getNode (nodes ++ [nd]) j = if j = nodes.length then nd else getNode nodes j := by
  unfold getNode
  by_cases h : j < nodes.length
  · rw [List.getD_eq_getElem?_getD, List.getElem?_append_left h, if_neg (by omega),
      List.getD_eq_getElem?_getD]
  · by_cases h2 : j = nodes.length
    · subst h2
      rw [List.getD_eq_getElem?_getD, List.getElem?_append_right (Nat.le_refl _)]
      simp
    · have e1 : (nodes ++ [nd])[j]? = ([nd])[j - nodes.length]? :=
        List.getElem?_append_right (by omega)
      have e2 : ([nd])[j - nodes.length]? = none := List.getElem?_eq_none (by simp; omega)
      have e3 : nodes[j]? = none := List.getElem?_eq_none (by omega)
      rw [List.getD_eq_getElem?_getD, e1, e2, if_neg h2, List.getD_eq_getElem?_getD, e3]

theorem friendsAt_ne_nil_lt {n : Node} {L : Nat} (h : friendsAt n L ≠ []) :
    L < n.friends.length := by
  by_contra hc
  apply h
  unfold friendsAt
  rw [List.getD_eq_getElem?_getD, List.getElem?_eq_none (by omega)]
  rfl

end HnswDB

namespace HnswDB

/-! ### Lemmas about `pruneConnections` -/

theorem drainMinAcc_length (Mmax : Nat) :
    ∀ (fuel : Nat) (conns : List (ℚ × Nat)) (acc : List Nat),
      conns.length ≤ fuel → acc.length ≤ Mmax →
      (drainMinAcc Mmax fuel conns acc).length = min Mmax (acc.length + conns.length)
  | 0, conns, acc, hf, ha => by
    have : conns = [] := List.length_eq_zero.1 (by omega)
    subst this
    simp only [drainMinAcc]
    omega
  | Nat.succ fuel, conns, acc, hf, ha => by
    simp only [drainMinAcc]
    split
    · rename_i hlt
      match hm : heapMin conns with
      | none =>
        cases conns with
        | nil => simp; omega
        | cons x xs => simp [heapMin] at hm
      | some t =>
        have htm := heapMin_mem hm
        have hlen := removeOne_length t conns htm
        rw [drainMinAcc_length Mmax fuel (removeOne t conns) (acc ++ [t.2])
          (by omega) (by simp; omega)]
        simp
        omega
    · rename_i hge
      have : acc.length = Mmax := by omega
      omega

theorem drainMinAcc_mem (Mmax : Nat) :
    ∀ (fuel : Nat) (conns : List (ℚ × Nat)) (acc : List Nat), ∀ x ∈ drainMinAcc Mmax fuel conns acc,
      x ∈ acc ∨ x ∈ conns.map Prod.snd
  | 0, conns, acc, x, hx => Or.inl hx
  | Nat.succ fuel, conns, acc, x, hx => by
    simp only [drainMinAcc] at hx
    split at hx
    · match hm : heapMin conns with
      | none =>
        rw [hm] at hx
        exact Or.inl hx
      | some t =>
        rw [hm] at hx
        have htm := heapMin_mem hm
        rcases drainMinAcc_mem Mmax fuel (removeOne t conns) (acc ++ [t.2]) x hx with h | h
        · rcases List.mem_append.1 h with h1 | h1
          · exact Or.inl h1
          · right
            have : x = t.2 := by simpa using h1
            rw [this]
            exact List.mem_map_of_mem Prod.snd htm
        · right
          rcases List.mem_map.1 h with ⟨u, hu, hux⟩
          exact hux ▸ List.mem_map_of_mem Prod.snd (removeOne_subset t conns u hu)
    · exact Or.inl hx

theorem pruneConnections_length (nodes : List Node) (dim node_id layer Mmax : Nat) :
    (pruneConnections nodes dim node_id layer Mmax).length = nodes.length := by
  unfold pruneConnections
  exact updateNode_length _ _ _

theorem friendsAt_prune_other {nodes : List Node} {node_id j : Nat} (dim layer Mmax : Nat)
    (h : j ≠ node_id) :
    getNode (pruneConnections nodes dim node_id layer Mmax) j = getNode nodes j := by
  unfold pruneConnections
  exact getNode_updateNode_ne _ h

theorem friendsAt_prune_self_ne {nodes : List Node} {node_id layer L : Nat} (dim Mmax : Nat)
    (h : L ≠ layer) :
    friendsAt (getNode (pruneConnections nodes dim node_id layer Mmax) node_id) L
      = friendsAt (getNode nodes node_id) L := by
  unfold pruneConnections
  by_cases hn : node_id < nodes.length
  · rw [getNode_updateNode_self _ hn]
    unfold friendsAt
    simp only
    rw [getD_set_ne (fun hh => h hh.symm)]
  · rw [updateNode_oob _ (by omega)]

theorem friendsAt_prune_self_eq {nodes : List Node} {node_id layer : Nat} (dim Mmax : Nat)
    (hn : node_id < nodes.length)
    (hl : layer < (getNode nodes node_id).friends.length) :
    friendsAt (getNode (pruneConnections nodes dim node_id layer Mmax) node_id) layer
      = drainMinAcc Mmax
          ((friendsAt (getNode nodes node_id) layer).map
            (fun neighbor_id => (L2Sqr dim (getNode nodes node_id).data
              (getNode nodes neighbor_id).data, neighbor_id))).length
          ((friendsAt (getNode nodes node_id) layer).map
            (fun neighbor_id => (L2Sqr dim (getNode nodes node_id).data
              (getNode nodes neighbor_id).data, neighbor_id)))
          [] := by
  unfold pruneConnections
  rw [getNode_updateNode_self _ hn]
  unfold friendsAt
  simp only
  rw [getD_set_self hl]

theorem friendsAt_prune_self_len_eq {nodes : List Node} {node_id layer Mmax : Nat} (dim : Nat)
    (hn : node_id < nodes.length)
    (hgt : Mmax < (friendsAt (getNode nodes node_id) layer).length) :
    (friendsAt (getNode (pruneConnections nodes dim node_id layer Mmax) node_id) layer).length
      = Mmax := by
  have hl : layer < (getNode nodes node_id).friends.length :=
    friendsAt_ne_nil_lt (by intro hnil; rw [hnil] at hgt; simp at hgt)
  rw [friendsAt_prune_self_eq dim Mmax hn hl,
    drainMinAcc_length Mmax _ _ [] (Nat.le_refl _) (by simp)]
  simp
  omega

theorem friendsAt_prune_self_subset {nodes : List Node} {node_id layer Mmax : Nat} (dim : Nat) :
    ∀ x ∈ friendsAt (getNode (pruneConnections nodes dim node_id layer Mmax) node_id) layer,
      x ∈ friendsAt (getNode nodes node_id) layer := by
  intro x hx
  by_cases hn : node_id < nodes.length
  · by_cases hl : layer < (getNode nodes node_id).friends.length
    · rw [friendsAt_prune_self_eq dim Mmax hn hl] at hx
      rcases drainMinAcc_mem _ _ _ _ x hx with h | h
      · simp at h
      · rw [List.map_map] at h
        simpa using h
    · unfold pruneConnections at hx
      rw [getNode_updateNode_self _ hn] at hx
      unfold friendsAt at hx
      simp only at hx
      rw [List.set_eq_of_length_le (by omega)] at hx
      exact hx
  · unfold pruneConnections at hx
    rw [updateNode_oob _ (by omega)] at hx
    exact hx

end HnswDB

namespace HnswDB

/-! ### Lemmas about `selectNeighbors` -/

theorem selectNeighbors_subset (M : Nat) :
    ∀ (fuel : Nat) (W ns : List (ℚ × Nat)), ∀ t ∈ selectNeighbors M fuel W ns, t ∈ W ∨ t ∈ ns
  | 0, W, ns, t, ht => Or.inr ht
  | Nat.succ fuel, W, ns, t, ht => by
    simp only [selectNeighbors] at ht
    split at ht
    · match hm : heapMax W with
      | none =>
        rw [hm] at ht
        exact Or.inr ht
      | some t0 =>
        rw [hm] at ht
        rcases selectNeighbors_subset M fuel (removeOne t0 W) (t0 :: ns) t ht with h | h
        · exact Or.inl (removeOne_subset t0 W t h)
        · rcases List.mem_cons.1 h with h1 | h1
          · exact Or.inl (h1 ▸ heapMax_mem hm)
          · exact Or.inr h1
    · exact Or.inr ht

theorem selectNeighbors_length (M : Nat) :
    ∀ (fuel : Nat) (W ns : List (ℚ × Nat)),
      (selectNeighbors M fuel W ns).length ≤ max M ns.length
  | 0, W, ns => Nat.le_max_right _ _
  | Nat.succ fuel, W, ns => by
    simp only [selectNeighbors]
    split
    · match hm : heapMax W with
      | none => exact Nat.le_max_right _ _
      | some t0 =>
        have := selectNeighbors_length M fuel (removeOne t0 W) (t0 :: ns)
        simp at this ⊢
        omega
    · exact Nat.le_max_right _ _

/-! ### Bounds and membership for `searchLayer` -/

theorem searchStep_W_le {nodes : List Node} {dim : Nat} {q : List ℚ} {ef : Nat}
    (acc : List (ℚ × Nat) × List (ℚ × Nat) × List Nat) (e : Nat)
    (h : acc.1.length ≤ max ef 1) :
    (searchStep nodes dim q ef acc e).1.length ≤ max ef 1 := by
  obtain ⟨W, C, vis⟩ := acc
  simp only [searchStep]
  split
  · exact h
  · split
    · split
      · rename_i hpush hev
        have hmem : heapMaxD ((nodeDist nodes dim q e, e) :: W)
            ∈ (nodeDist nodes dim q e, e) :: W := heapMaxD_mem (by simp)
        have hlen := removeOne_length _ _ hmem
        simp only [List.length_cons] at hlen h ⊢
        omega
      · rename_i hpush hev
        simp only [List.length_cons] at hev ⊢
        omega
    · exact h

theorem searchLoop_W_le {nodes : List Node} {dim : Nat} {q : List ℚ} {ef l : Nat} :
    ∀ (fuel : Nat) (W C : List (ℚ × Nat)) (vis : List Nat),
      W.length ≤ max ef 1 →
      (searchLoop nodes dim q ef l fuel W C vis).length ≤ max ef 1
  | 0, W, C, vis, hW => hW
  | Nat.succ fuel, W, C, vis, hW => by
    simp only [searchLoop]
    match hm : heapMin C with
    | none => exact hW
    | some c =>
      simp only
      split
      · exact hW
      · exact searchLoop_W_le fuel _ _ _
          (foldl_invariant (searchStep nodes dim q ef)
            (fun acc => acc.1.length ≤ max ef 1)
            (friendsAt (getNode nodes c.2) l) (W, removeOne c C, vis) hW
            (fun b a _ hb => searchStep_W_le b a hb))

theorem searchLayer_W_le (nodes : List Node) (dim : Nat) (q : List ℚ) (ep ef l : Nat) :
    (searchLayer nodes dim q ep ef l).length ≤ max ef 1 := by
  unfold searchLayer
  exact searchLoop_W_le _ _ _ _ (by simp)

theorem searchStep_ids {nodes : List Node} {dim : Nat} {q : List ℚ} {ef l : Nat}
    (Q : Nat → Prop) {c : Nat} (hfr : ∀ x ∈ friendsAt (getNode nodes c) l, Q x)
    (acc : List (ℚ × Nat) × List (ℚ × Nat) × List Nat) (e : Nat)
    (he : e ∈ friendsAt (getNode nodes c) l)
    (h : (∀ t ∈ acc.1, Q t.2) ∧ (∀ t ∈ acc.2.1, Q t.2)) :
    (∀ t ∈ (searchStep nodes dim q ef acc e).1, Q t.2) ∧
    (∀ t ∈ (searchStep nodes dim q ef acc e).2.1, Q t.2) := by
  obtain ⟨W, C, vis⟩ := acc
  obtain ⟨hW, hC⟩ := h
  simp only [searchStep]
  split
  · exact ⟨hW, hC⟩
  · split
    · split
      · refine ⟨fun t ht => ?_, fun t ht => ?_⟩
        · have := removeOne_subset _ _ t ht
          rcases List.mem_cons.1 this with h1 | h1
          · rw [h1]; exact hfr e he
          · exact hW t h1
        · rcases List.mem_cons.1 ht with h1 | h1
          · rw [h1]; exact hfr e he
          · exact hC t h1
      · refine ⟨fun t ht => ?_, fun t ht => ?_⟩
        · rcases List.mem_cons.1 ht with h1 | h1
          · rw [h1]; exact hfr e he
          · exact hW t h1
        · rcases List.mem_cons.1 ht with h1 | h1
          · rw [h1]; exact hfr e he
          · exact hC t h1
    · exact ⟨hW, hC⟩

theorem searchLoop_ids {nodes : List Node} {dim : Nat} {q : List ℚ} {ef l : Nat}
    (Q : Nat → Prop) (hfr : ∀ n, ∀ x ∈ friendsAt (getNode nodes n) l, Q x) :
    ∀ (fuel : Nat) (W C : List (ℚ × Nat)) (vis : List Nat),
      (∀ t ∈ W, Q t.2) → (∀ t ∈ C, Q t.2) →
      ∀ t ∈ searchLoop nodes dim q ef l fuel W C vis, Q t.2
  | 0, W, C, vis, hW, hC => hW
  | Nat.succ fuel, W, C, vis, hW, hC => by
    simp only [searchLoop]
    match hm : heapMin C with
    | none => exact hW
    | some c =>
      simp only
      split
      · exact hW
      · have hfold := foldl_invariant (searchStep nodes dim q ef)
          (fun acc => (∀ t ∈ acc.1, Q t.2) ∧ (∀ t ∈ acc.2.1, Q t.2))
          (friendsAt (getNode nodes c.2) l) (W, removeOne c C, vis)
          ⟨hW, fun t ht => hC t (removeOne_subset c C t ht)⟩
          (fun b a ha hb => searchStep_ids Q (hfr c.2) b a ha hb)
        exact searchLoop_ids Q hfr fuel _ _ _ hfold.1 hfold.2

theorem searchLayer_ids {nodes : List Node} {dim : Nat} {q : List ℚ} {ep ef l : Nat}
    (Q : Nat → Prop) (hep : Q ep) (hfr : ∀ n, ∀ x ∈ friendsAt (getNode nodes n) l, Q x) :
    ∀ t ∈ searchLayer nodes dim q ep ef l, Q t.2 := by
  unfold searchLayer
  exact searchLoop_ids Q hfr _ _ _ _
    (by intro t ht; simp at ht; rw [ht]; exact hep)
    (by intro t ht; simp at ht; rw [ht]; exact hep)

theorem descentLoop_ids {nodes : List Node} {dim : Nat} {q : List ℚ} {l : Nat}
    (Q : Nat → Prop) (h0 : Q 0) (hfr : ∀ lc, ∀ n, ∀ x ∈ friendsAt (getNode nodes n) lc, Q x) :
    ∀ (lc ep : Nat), Q ep → Q (descentLoop nodes dim q l lc ep)
  | 0, ep, hep => hep
  | Nat.succ lc, ep, hep => by
    simp only [descentLoop]
    split
    · apply descentLoop_ids Q h0 hfr lc
      match hW : searchLayer nodes dim q ep 1 (Nat.succ lc) with
      | [] => simpa [heapMaxD, heapMax] using h0
      | w :: ws =>
        have : heapMaxD (w :: ws) ∈ w :: ws := heapMaxD_mem (by simp)
        have hall := @searchLayer_ids nodes dim q ep 1 (Nat.succ lc) Q hep
          (hfr (Nat.succ lc))
        rw [hW] at hall
        exact hall _ this
    · exact hep

end HnswDB

namespace HnswDB

/-! ### Structural lemmas about the linking loops -/

theorem friendsAt_updateNode_addNeighbor_ne {nodes : List Node} {j i lc L : Nat} (nb : Nat)
    (hL : L ≠ lc) :
    friendsAt (getNode (updateNode nodes j (fun n => n.addNeighbor lc nb)) i) L
      = friendsAt (getNode nodes i) L := by
  by_cases hij : i = j
  · subst hij
    by_cases hj : i < nodes.length
    · rw [getNode_updateNode_self _ hj, friendsAt_addNeighbor_ne _ _ hL]
    · rw [updateNode_oob _ (by omega)]
  · rw [getNode_updateNode_ne _ hij]

theorem friendsAt_prune_ne {nodes : List Node} {node_id layer i L : Nat} (dim Mmax : Nat)
    (hL : L ≠ layer) :
    friendsAt (getNode (pruneConnections nodes dim node_id layer Mmax) i) L
      = friendsAt (getNode nodes i) L := by
  by_cases hin : i = node_id
  · subst hin
    exact friendsAt_prune_self_ne dim Mmax hL
  · rw [friendsAt_prune_other dim layer Mmax hin]

theorem connectNeighbors_length (dim lc Mmax id : Nat) :
    ∀ (fuel : Nat) (neighbors : List (ℚ × Nat)) (nodes : List Node),
      (connectNeighbors dim lc Mmax id fuel neighbors nodes).length = nodes.length
  | 0, neighbors, nodes => rfl
  | Nat.succ fuel, neighbors, nodes => by
    simp only [connectNeighbors]
    match hm : heapMax neighbors with
    | none => rfl
    | some t =>
      simp only
      rw [connectNeighbors_length dim lc Mmax id fuel]
      split
      · rw [pruneConnections_length, updateNode_length, updateNode_length]
      · rw [updateNode_length, updateNode_length]

theorem connectNeighbors_friendsAt_ne (dim lc Mmax id : Nat) {L : Nat} (hL : L ≠ lc) :
    ∀ (fuel : Nat) (neighbors : List (ℚ × Nat)) (nodes : List Node) (i : Nat),
      friendsAt (getNode (connectNeighbors dim lc Mmax id fuel neighbors nodes) i) L
        = friendsAt (getNode nodes i) L
  | 0, neighbors, nodes, i => rfl
  | Nat.succ fuel, neighbors, nodes, i => by
    simp only [connectNeighbors]
    match hm : heapMax neighbors with
    | none => rfl
    | some t =>
      simp only
      rw [connectNeighbors_friendsAt_ne dim lc Mmax id hL fuel]
      split
      · rw [friendsAt_prune_ne _ _ hL, friendsAt_updateNode_addNeighbor_ne _ hL,
          friendsAt_updateNode_addNeighbor_ne _ hL]
      · rw [friendsAt_updateNode_addNeighbor_ne _ hL,
          friendsAt_updateNode_addNeighbor_ne _ hL]

theorem linkAtLayer_length (dim M M_max0 efc : Nat) (p : List ℚ) (id ep lc : Nat)
    (nodes : List Node) :
    (linkAtLayer dim M M_max0 efc p id ep lc nodes).length = nodes.length := by
  unfold linkAtLayer
  exact connectNeighbors_length _ _ _ _ _ _ _

theorem linkAtLayer_friendsAt_ne (dim M M_max0 efc : Nat) (p : List ℚ) (id ep : Nat)
    {lc L : Nat} (hL : L ≠ lc) (nodes : List Node) (i : Nat) :
    friendsAt (getNode (linkAtLayer dim M M_max0 efc p id ep lc nodes) i) L
      = friendsAt (getNode nodes i) L := by
  unfold linkAtLayer
  exact connectNeighbors_friendsAt_ne _ _ _ _ hL _ _ _ _

theorem linkLoop_length (dim M M_max0 efc : Nat) (p : List ℚ) (id ep : Nat) :
    ∀ (lc : Nat) (nodes : List Node),
      (linkLoop dim M M_max0 efc p id ep lc nodes).length = nodes.length
  | 0, nodes => linkAtLayer_length _ _ _ _ _ _ _ _ _
  | Nat.succ lc, nodes => by
    simp only [linkLoop]
    rw [linkLoop_length dim M M_max0 efc p id ep lc, linkAtLayer_length]

theorem linkLoop_friendsAt_gt (dim M M_max0 efc : Nat) (p : List ℚ) (id ep : Nat) :
    ∀ (lc : Nat) (nodes : List Node) {L : Nat}, lc < L → ∀ (i : Nat),
      friendsAt (getNode (linkLoop dim M M_max0 efc p id ep lc nodes) i) L
        = friendsAt (getNode nodes i) L
  | 0, nodes, L, hL, i => linkAtLayer_friendsAt_ne _ _ _ _ _ _ _ (by omega) _ _
  | Nat.succ lc, nodes, L, hL, i => by
    simp only [linkLoop]
    rw [linkLoop_friendsAt_gt dim M M_max0 efc p id ep lc _ (by omega),
      linkAtLayer_friendsAt_ne _ _ _ _ _ _ _ (by omega)]

theorem addPoint_nodes_length (st : HNSW) (p : List ℚ) (label : Int) :
    (st.addPoint p label).nodes.length = st.nodes.length + 1 := by
  unfold HNSW.addPoint
  cases h : st.enter_point with
  | none => simp
  | some ep0 => simp [linkLoop_length]

theorem addPoint_M (st : HNSW) (p : List ℚ) (label : Int) :
    (st.addPoint p label).M = st.M := by
  unfold HNSW.addPoint
  cases h : st.enter_point <;> rfl

theorem addPoint_M_max0 (st : HNSW) (p : List ℚ) (label : Int) :
    (st.addPoint p label).M_max0 = st.M_max0 := by
  unfold HNSW.addPoint
  cases h : st.enter_point <;> rfl

theorem addPoint_ef_construction (st : HNSW) (p : List ℚ) (label : Int) :
    (st.addPoint p label).ef_construction = st.ef_construction := by
  unfold HNSW.addPoint
  cases h : st.enter_point <;> rfl

theorem addPoint_enter_point_some (st : HNSW) (p : List ℚ) (label : Int) {e : Nat}
    (h : st.enter_point = some e) : (st.addPoint p label).enter_point = some e := by
  unfold HNSW.addPoint
  rw [h]

end HnswDB

namespace HnswDB

/-! ### Invariant preservation through one linking iteration -/

theorem layerMmax_ge {M M_max0 : Nat} (L : Nat) (hM : M ≤ M_max0) :
    M ≤ layerMmax M M_max0 L := by
  unfold layerMmax
  split
  · exact hM
  · exact Nat.le_refl M

/-- Invariants carried across one iteration of the `while (!neighbors.empty())`
loop of `HNSW::addPoint`: `nodes3` is the state after the bidirectional edge
`id ↔ nb` has been added at layer `lc` and `nb` has possibly been pruned. -/
theorem connectStep_facts (M M_max0 id lc nb : Nat) (hM : M ≤ M_max0) (hnb : nb < id)
    (nodes nodes3 : List Node)
    (hlen : nodes.length = id + 1)
    (n3len : nodes3.length = id + 1)
    (hdegX : ∀ i L, ¬(i = id ∧ L = lc) →
      (friendsAt (getNode nodes i) L).length ≤ layerMmax M M_max0 L)
    (hbud : (friendsAt (getNode nodes id) lc).length + 1 ≤ M)
    (hrange : edgesInRange nodes)
    (hsym : symOrFull M M_max0 nodes)
    (n3ne : ∀ i L, L ≠ lc →
      friendsAt (getNode nodes3 i) L = friendsAt (getNode nodes i) L)
    (n3id : friendsAt (getNode nodes3 id) lc = friendsAt (getNode nodes id) lc ++ [nb])
    (n3other : ∀ i, i ≠ id → i ≠ nb →
      friendsAt (getNode nodes3 i) lc = friendsAt (getNode nodes i) lc)
    (n3nb_len : (friendsAt (getNode nodes3 nb) lc).length ≤ layerMmax M M_max0 lc)
    (n3nb_sub : ∀ x ∈ friendsAt (getNode nodes3 nb) lc,
      x ∈ friendsAt (getNode nodes nb) lc ∨ x = id)
    (n3nb_cases : friendsAt (getNode nodes3 nb) lc = friendsAt (getNode nodes nb) lc ++ [id] ∨
      (friendsAt (getNode nodes3 nb) lc).length = layerMmax M M_max0 lc) :
    (∀ i L, ¬(i = id ∧ L = lc) →
      (friendsAt (getNode nodes3 i) L).length ≤ layerMmax M M_max0 L) ∧
    edgesInRange nodes3 ∧ symOrFull M M_max0 nodes3 := by
  have hnbid : nb ≠ id := by omega
  refine ⟨?_, ?_, ?_⟩
  · -- degree bound outside the slot (id, lc)
    intro i L hiL
    by_cases hL : lc = L
    · by_cases hii : id = i
      · exact absurd ⟨hii.symm, hL.symm⟩ hiL
      · by_cases hinb : nb = i
        · rw [← hinb, ← hL]
          exact n3nb_len
        · rw [← hL, n3other i (fun h => hii h.symm) (fun h => hinb h.symm), hL]
          exact hdegX i L hiL
    · rw [n3ne i L (fun h => hL h.symm)]
      exact hdegX i L hiL
  · -- every edge still points at an existing node
    intro i L x hx
    rw [n3len]
    by_cases hL : lc = L
    · rw [← hL] at hx
      by_cases hii : id = i
      · rw [← hii, n3id] at hx
        rcases List.mem_append.1 hx with h | h
        · have := hrange id lc x h
          omega
        · have : x = nb := by simpa using h
          omega
      · by_cases hinb : nb = i
        · rw [← hinb] at hx
          rcases n3nb_sub x hx with h | h
          · have := hrange nb lc x h
            omega
          · omega
        · rw [n3other i (fun h => hii h.symm) (fun h => hinb h.symm)] at hx
          have := hrange i lc x hx
          omega
    · rw [n3ne i L (fun h => hL h.symm)] at hx
      have := hrange i L x hx
      omega
  · -- symmetric-or-full
    intro i L x hx
    by_cases hL : lc = L
    · rw [← hL] at hx ⊢
      by_cases hii : id = i
      · rw [← hii] at hx ⊢
        rw [n3id] at hx
        have hxcase : x ∈ friendsAt (getNode nodes id) lc ∨ x = nb := by
          rcases List.mem_append.1 hx with h | h
          · exact Or.inl h
          · exact Or.inr (by simpa using h)
        by_cases hxnb : nb = x
        · rw [← hxnb]
          rcases n3nb_cases with hcase | hcase
          · left
            rw [hcase]
            simp
          · right
            exact hcase
        · rcases hxcase with hxo | hxo
          · by_cases hxid : id = x
            · left
              rw [← hxid, n3id]
              exact List.mem_append_left _ (hxid ▸ hxo)
            · rcases hsym id lc x hxo with h | h
              · left
                rw [n3other x (fun h => hxid h.symm) (fun h => hxnb h.symm)]
                exact h
              · right
                rw [n3other x (fun h => hxid h.symm) (fun h => hxnb h.symm)]
                exact h
          · exact absurd hxo.symm hxnb
      · by_cases hinb : nb = i
        · rw [← hinb] at hx ⊢
          have hxcase : x ∈ friendsAt (getNode nodes nb) lc ∨ x = id := n3nb_sub x hx
          by_cases hxid : id = x
          · left
            rw [← hxid, n3id]
            simp
          · rcases hxcase with hxo | hxo
            · by_cases hxnb : nb = x
              · rw [← hxnb]
                rcases n3nb_cases with hcase | hcase
                · left
                  rw [hcase]
                  exact List.mem_append_left _ (hxnb ▸ hxo)
                · right
                  exact hcase
              · rcases hsym nb lc x hxo with h | h
                · left
                  rw [n3other x (fun h => hxid h.symm) (fun h => hxnb h.symm)]
                  exact h
                · right
                  rw [n3other x (fun h => hxid h.symm) (fun h => hxnb h.symm)]
                  exact h
            · exact absurd hxo.symm hxid
        · rw [n3other i (fun h => hii h.symm) (fun h => hinb h.symm)] at hx
          rcases hsym i lc x hx with h | h
          · -- the reverse edge existed before this iteration
            by_cases hxid : id = x
            · left
              rw [← hxid, n3id]
              exact List.mem_append_left _ (hxid ▸ h)
            · by_cases hxnb : nb = x
              · rw [← hxnb]
                rcases n3nb_cases with hcase | hcase
                · left
                  rw [hcase]
                  exact List.mem_append_left _ (hxnb ▸ h)
                · right
                  exact hcase
              · left
                rw [n3other x (fun h => hxid h.symm) (fun h => hxnb h.symm)]
                exact h
          · -- the target was at the prune bound before this iteration
            by_cases hxid : id = x
            · exfalso
              rw [← hxid] at h
              have hge := @layerMmax_ge M M_max0 lc hM
              omega
            · by_cases hxnb : nb = x
              · rw [← hxnb]
                right
                rcases n3nb_cases with hcase | hcase
                · exfalso
                  rw [← hxnb] at h
                  have : (friendsAt (getNode nodes3 nb) lc).length
                      = (friendsAt (getNode nodes nb) lc).length + 1 := by
                    rw [hcase]
                    simp
                  omega
                · exact hcase
              · right
                rw [n3other x (fun h => hxid h.symm) (fun h => hxnb h.symm)]
                exact h
    · rw [n3ne i L (fun h => hL h.symm)] at hx
      rcases hsym i L x hx with h | h
      · left
        rw [n3ne x L (fun h => hL h.symm)]
        exact h
      · right
        rw [n3ne x L (fun h => hL h.symm)]
        exact h

end HnswDB

namespace HnswDB

/-- The graph invariant is preserved by the whole
`while (!neighbors.empty())` loop of `HNSW::addPoint`, provided the selected
neighbours are earlier nodes and the new node still has room for them. -/
theorem connectNeighbors_inv (dim lc id M M_max0 : Nat) (hM : M ≤ M_max0) :
    ∀ (fuel : Nat) (neighbors : List (ℚ × Nat)) (nodes : List Node),
      neighbors.length = fuel →
      nodes.length = id + 1 →
      (∀ t ∈ neighbors, t.2 < id) →
      (∀ i L, ¬(i = id ∧ L = lc) →
        (friendsAt (getNode nodes i) L).length ≤ layerMmax M M_max0 L) →
      (friendsAt (getNode nodes id) lc).length + neighbors.length ≤ M →
      edgesInRange nodes →
      symOrFull M M_max0 nodes →
      graphInv M M_max0
        (connectNeighbors dim lc (layerMmax M M_max0 lc) id fuel neighbors nodes)
  | 0, neighbors, nodes, hfuel, hlen, hmem, hdegX, hbud, hrange, hsym => by
    simp only [connectNeighbors]
    refine ⟨?_, hrange, hsym⟩
    intro i L
    by_cases hiL : i = id ∧ L = lc
    · obtain ⟨h1, h2⟩ := hiL
      rw [h1, h2]
      have hle : (friendsAt (getNode nodes id) lc).length ≤ M := by omega
      exact le_trans hle (layerMmax_ge lc hM)
    · exact hdegX i L hiL
  | Nat.succ fuel, neighbors, nodes, hfuel, hlen, hmem, hdegX, hbud, hrange, hsym => by
    have hne : neighbors ≠ [] := by
      intro h
      rw [h] at hfuel
      simp at hfuel
    obtain ⟨t, hm⟩ := heapMax_isSome hne
    have htmem := heapMax_mem hm
    have hnb : t.2 < id := hmem t htmem
    have hnbid : t.2 ≠ id := by omega
    have hidnb : id ≠ t.2 := by omega
    have hidlt : id < nodes.length := by omega
    have hAlen : (updateNode nodes id (fun n => n.addNeighbor lc t.2)).length
        = nodes.length := updateNode_length _ _ _
    have hBlen : (updateNode (updateNode nodes id (fun n => n.addNeighbor lc t.2)) t.2
        (fun n => n.addNeighbor lc id)).length = id + 1 := by
      rw [updateNode_length, hAlen, hlen]
    have e_ne : ∀ i L, L ≠ lc →
        friendsAt (getNode (updateNode (updateNode nodes id
          (fun n => n.addNeighbor lc t.2)) t.2 (fun n => n.addNeighbor lc id)) i) L
          = friendsAt (getNode nodes i) L := by
      intro i L hL
      rw [friendsAt_updateNode_addNeighbor_ne _ hL, friendsAt_updateNode_addNeighbor_ne _ hL]
    have e_id : friendsAt (getNode (updateNode (updateNode nodes id
        (fun n => n.addNeighbor lc t.2)) t.2 (fun n => n.addNeighbor lc id)) id) lc
        = friendsAt (getNode nodes id) lc ++ [t.2] := by
      rw [getNode_updateNode_ne _ hidnb, getNode_updateNode_self _ hidlt]
      exact friendsAt_addNeighbor_self _ _ _
    have e_nb : friendsAt (getNode (updateNode (updateNode nodes id
        (fun n => n.addNeighbor lc t.2)) t.2 (fun n => n.addNeighbor lc id)) t.2) lc
        = friendsAt (getNode nodes t.2) lc ++ [id] := by
      rw [getNode_updateNode_self _ (by rw [hAlen]; omega),
        getNode_updateNode_ne _ hnbid]
      exact friendsAt_addNeighbor_self _ _ _
    have e_other : ∀ i, i ≠ id → i ≠ t.2 →
        friendsAt (getNode (updateNode (updateNode nodes id
          (fun n => n.addNeighbor lc t.2)) t.2 (fun n => n.addNeighbor lc id)) i) lc
          = friendsAt (getNode nodes i) lc := by
      intro i hi1 hi2
      rw [getNode_updateNode_ne _ hi2, getNode_updateNode_ne _ hi1]
    simp only [connectNeighbors, hm]
    by_cases hcond : layerMmax M M_max0 lc <
        (friendsAt (getNode (updateNode (updateNode nodes id
          (fun n => n.addNeighbor lc t.2)) t.2 (fun n => n.addNeighbor lc id)) t.2) lc).length
    · rw [if_pos hcond]
      have hnblt : t.2 < (updateNode (updateNode nodes id
          (fun n => n.addNeighbor lc t.2)) t.2 (fun n => n.addNeighbor lc id)).length := by
        rw [hBlen]
        omega
      have n3len_eq := @friendsAt_prune_self_len_eq _ _ _ (layerMmax M M_max0 lc) dim hnblt hcond
      obtain ⟨hdegX3, hrange3, hsym3⟩ := connectStep_facts M M_max0 id lc t.2 hM hnb nodes _
        hlen
        (by rw [pruneConnections_length, hBlen])
        hdegX
        (by omega)
        hrange hsym
        (fun i L hL => by rw [friendsAt_prune_ne _ _ hL, e_ne i L hL])
        (by rw [friendsAt_prune_other dim lc (layerMmax M M_max0 lc) hidnb, e_id])
        (fun i hi1 hi2 => by
          rw [friendsAt_prune_other dim lc (layerMmax M M_max0 lc) hi2, e_other i hi1 hi2])
        (by rw [n3len_eq])
        (fun x hx => by
          have := friendsAt_prune_self_subset dim x hx
          rw [e_nb] at this
          rcases List.mem_append.1 this with h | h
          · exact Or.inl h
          · exact Or.inr (by simpa using h))
        (Or.inr n3len_eq)
      exact connectNeighbors_inv dim lc id M M_max0 hM fuel (removeOne t neighbors) _
        (by have := removeOne_length t neighbors htmem; omega)
        (by rw [pruneConnections_length, hBlen])
        (fun u hu => hmem u (removeOne_subset t neighbors u hu))
        hdegX3
        (by
          rw [friendsAt_prune_other dim lc (layerMmax M M_max0 lc) hidnb, e_id]
          have hr := removeOne_length t neighbors htmem
          simp only [List.length_append, List.length_cons, List.length_nil]
          omega)
        hrange3 hsym3
    · rw [if_neg hcond]
      obtain ⟨hdegX3, hrange3, hsym3⟩ := connectStep_facts M M_max0 id lc t.2 hM hnb nodes _
        hlen
        hBlen
        hdegX
        (by omega)
        hrange hsym
        e_ne
        e_id
        e_other
        (by omega)
        (fun x hx => by
          rw [e_nb] at hx
          rcases List.mem_append.1 hx with h | h
          · exact Or.inl h
          · exact Or.inr (by simpa using h))
        (Or.inl e_nb)
      exact connectNeighbors_inv dim lc id M M_max0 hM fuel (removeOne t neighbors) _
        (by have := removeOne_length t neighbors htmem; omega)
        hBlen
        (fun u hu => hmem u (removeOne_subset t neighbors u hu))
        hdegX3
        (by
          rw [e_id]
          have hr := removeOne_length t neighbors htmem
          simp only [List.length_append, List.length_cons, List.length_nil]
          omega)
        hrange3 hsym3

end HnswDB

namespace HnswDB

/-- One layer of the linking loop preserves the graph invariant, keeps the
new node absent from all strictly lower layers, and preserves the node
count. -/
theorem linkAtLayer_inv (dim M M_max0 efc : Nat) (p : List ℚ) (id ep lc : Nat)
    (hM : M ≤ M_max0) (hep : ep < id) (nodes : List Node)
    (hlen : nodes.length = id + 1)
    (hg : graphInv M M_max0 nodes)
    (hnotin : ∀ n L, L ≤ lc → id ∉ friendsAt (getNode nodes n) L)
    (hempty : ∀ L, L ≤ lc → friendsAt (getNode nodes id) L = []) :
    graphInv M M_max0 (linkAtLayer dim M M_max0 efc p id ep lc nodes) ∧
    (linkAtLayer dim M M_max0 efc p id ep lc nodes).length = id + 1 ∧
    (∀ n L, L < lc →
      id ∉ friendsAt (getNode (linkAtLayer dim M M_max0 efc p id ep lc nodes) n) L) ∧
    (∀ L, L < lc →
      friendsAt (getNode (linkAtLayer dim M M_max0 efc p id ep lc nodes) id) L = []) := by
  obtain ⟨hdeg, hrange, hsym⟩ := hg
  have hW : ∀ t ∈ searchLayer nodes dim p ep efc lc, t.2 < id := by
    refine searchLayer_ids (fun x => x < id) hep ?_
    intro n x hx
    have h1 := hrange n lc x hx
    have h2 : x ≠ id := fun hxe => hnotin n lc (Nat.le_refl lc) (hxe ▸ hx)
    omega
  refine ⟨?_, by rw [linkAtLayer_length, hlen], ?_, ?_⟩
  · unfold linkAtLayer
    refine connectNeighbors_inv dim lc id M M_max0 hM _ _ _ rfl hlen ?_
      (fun i L _ => hdeg i L) ?_ hrange hsym
    · intro t ht
      rcases selectNeighbors_subset M _ _ _ t ht with h | h
      · exact hW t h
      · simp at h
    · rw [hempty lc (Nat.le_refl lc)]
      have hs := selectNeighbors_length M
        (M + (searchLayer nodes dim p ep efc lc).length)
        (searchLayer nodes dim p ep efc lc) []
      simp only [List.length_nil, Nat.max_eq_left (Nat.zero_le M)] at hs
      simpa using hs
  · intro n L hL
    rw [linkAtLayer_friendsAt_ne _ _ _ _ _ _ _ (by omega)]
    exact hnotin n L (by omega)
  · intro L hL
    rw [linkAtLayer_friendsAt_ne _ _ _ _ _ _ _ (by omega)]
    exact hempty L (by omega)

/-- The whole linking loop (layers `lc` down to 0) preserves the graph
invariant. -/
theorem linkLoop_inv (dim M M_max0 efc : Nat) (p : List ℚ) (id ep : Nat)
    (hM : M ≤ M_max0) (hep : ep < id) :
    ∀ (lc : Nat) (nodes : List Node),
      nodes.length = id + 1 →
      graphInv M M_max0 nodes →
      (∀ n L, L ≤ lc → id ∉ friendsAt (getNode nodes n) L) →
      (∀ L, L ≤ lc → friendsAt (getNode nodes id) L = []) →
      graphInv M M_max0 (linkLoop dim M M_max0 efc p id ep lc nodes)
  | 0, nodes, hlen, hg, hnotin, hempty =>
    (linkAtLayer_inv dim M M_max0 efc p id ep 0 hM hep nodes hlen hg hnotin hempty).1
  | Nat.succ lc, nodes, hlen, hg, hnotin, hempty => by
    obtain ⟨hg1, hlen1, hnotin1, hempty1⟩ :=
      linkAtLayer_inv dim M M_max0 efc p id ep (Nat.succ lc) hM hep nodes hlen hg
        hnotin hempty
    simp only [linkLoop]
    exact linkLoop_inv dim M M_max0 efc p id ep hM hep lc _ hlen1 hg1
      (fun n L hL => hnotin1 n L (by omega))
      (fun L hL => hempty1 L (by omega))

/-- Extending the node array with an edge-free node preserves the graph
invariant. -/
theorem graphInv_append (M M_max0 : Nat) (nodes : List Node) (nd : Node)
    (hnd : nd.friends = []) (h : graphInv M M_max0 nodes) :
    graphInv M M_max0 (nodes ++ [nd]) := by
  obtain ⟨hdeg, hrange, hsym⟩ := h
  have hnew : ∀ L, friendsAt nd L = [] := by
    intro L
    unfold friendsAt
    rw [hnd]
    rfl
  refine ⟨?_, ?_, ?_⟩
  · intro i L
    rw [getNode_append]
    split
    · rw [hnew]
      exact Nat.zero_le _
    · exact hdeg i L
  · intro i L x hx
    rw [getNode_append] at hx
    simp only [List.length_append, List.length_cons, List.length_nil]
    split at hx
    · rw [hnew] at hx
      simp at hx
    · have := hrange i L x hx
      omega
  · intro i L x hx
    rw [getNode_append] at hx
    split at hx
    · rw [hnew] at hx
      simp at hx
    · have hxlt := hrange i L x hx
      rcases hsym i L x hx with h | h
      · left
        rw [getNode_append, if_neg (by omega)]
        exact h
      · right
        rw [getNode_append, if_neg (by omega)]
        exact h

/-- Entries of the extended node array still name only old nodes. -/
theorem append_entries_lt (nodes : List Node) (nd : Node) (hnd : nd.friends = [])
    (hrange : edgesInRange nodes) :
    ∀ n L x, x ∈ friendsAt (getNode (nodes ++ [nd]) n) L → x < nodes.length := by
  intro n L x hx
  rw [getNode_append] at hx
  split at hx
  · unfold friendsAt at hx
    rw [hnd] at hx
    simp [List.getD] at hx
  · exact hrange n L x hx

/-- `HNSW::addPoint` preserves the index invariant when `M ≤ M_max0`. -/
theorem addPoint_inv (st : HNSW) (p : List ℚ) (label : Int) (hM : st.M ≤ st.M_max0)
    (h : hnswInv st) : hnswInv (st.addPoint p label) := by
  obtain ⟨hg, hentry⟩ := h
  unfold HNSW.addPoint
  cases hE : st.enter_point with
  | none =>
    refine ⟨graphInv_append _ _ _ _ rfl hg, ?_⟩
    intro e he
    simp only [Option.some.injEq] at he
    simp only [List.length_append, List.length_cons, List.length_nil]
    omega
  | some ep0 =>
    have hep0 : ep0 < st.nodes.length := hentry ep0 hE
    have hid1 : st.nodes.length ≥ 1 := by omega
    have hg1 : graphInv st.M st.M_max0
        (st.nodes ++ [{ data := p.take st.dim, label := label, friends := [] }]) :=
      graphInv_append _ _ _ _ rfl hg
    have hlt : ∀ n L x, x ∈ friendsAt (getNode
        (st.nodes ++ [{ data := p.take st.dim, label := label, friends := [] }]) n) L →
        x < st.nodes.length :=
      append_entries_lt _ _ rfl hg.2.1
    have hep1 : descentLoop
        (st.nodes ++ [{ data := p.take st.dim, label := label, friends := [] }]) st.dim p
        (getRandomLayer st.ml 0 st.gen).1
        (if st.L < (getRandomLayer st.ml 0 st.gen).1 then (getRandomLayer st.ml 0 st.gen).1
          else st.L) ep0 < st.nodes.length := by
      refine descentLoop_ids (fun x => x < st.nodes.length) (by omega)
        (fun lc n x hx => hlt n lc x hx) _ ep0 hep0
    have hnotin : ∀ n L, L ≤ min (getRandomLayer st.ml 0 st.gen).1
        (if st.L < (getRandomLayer st.ml 0 st.gen).1 then (getRandomLayer st.ml 0 st.gen).1
          else st.L) →
        st.nodes.length ∉ friendsAt (getNode
          (st.nodes ++ [{ data := p.take st.dim, label := label, friends := [] }]) n) L := by
      intro n L _ hmem
      have := hlt n L _ hmem
      omega
    have hempty : ∀ L, L ≤ min (getRandomLayer st.ml 0 st.gen).1
        (if st.L < (getRandomLayer st.ml 0 st.gen).1 then (getRandomLayer st.ml 0 st.gen).1
          else st.L) →
        friendsAt (getNode
          (st.nodes ++ [{ data := p.take st.dim, label := label, friends := [] }])
          st.nodes.length) L = [] := by
      intro L _
      rw [getNode_append, if_pos rfl]
      rfl
    refine ⟨?_, ?_⟩
    · exact linkLoop_inv st.dim st.M st.M_max0 st.ef_construction p st.nodes.length _ hM hep1
        _ _ (by simp) hg1 hnotin hempty
    · intro e he
      simp only [Option.some.injEq] at he
      rw [linkLoop_length]
      simp only [List.length_append, List.length_cons, List.length_nil]
      omega

end HnswDB

namespace HnswDB

/-! ### Lemmas about `buildHNSW` and the constructor -/

theorem buildHNSW_nil (st : HNSW) : buildHNSW st [] = st := rfl

theorem buildHNSW_cons (st : HNSW) (pi : List ℚ × Int) (rest : List (List ℚ × Int)) :
    buildHNSW st (pi :: rest) = buildHNSW (st.addPoint pi.1 pi.2) rest := rfl

theorem buildHNSW_M : ∀ (inserts : List (List ℚ × Int)) (st : HNSW),
    (buildHNSW st inserts).M = st.M
  | [], st => rfl
  | pi :: rest, st => by
    rw [buildHNSW_cons, buildHNSW_M rest, addPoint_M]

theorem buildHNSW_M_max0 : ∀ (inserts : List (List ℚ × Int)) (st : HNSW),
    (buildHNSW st inserts).M_max0 = st.M_max0
  | [], st => rfl
  | pi :: rest, st => by
    rw [buildHNSW_cons, buildHNSW_M_max0 rest, addPoint_M_max0]

theorem buildHNSW_nodes_length : ∀ (inserts : List (List ℚ × Int)) (st : HNSW),
    (buildHNSW st inserts).nodes.length = st.nodes.length + inserts.length
  | [], st => rfl
  | pi :: rest, st => by
    rw [buildHNSW_cons, buildHNSW_nodes_length rest, addPoint_nodes_length]
    simp only [List.length_cons]
    omega

theorem hnswInv_new (dim max_elements M M_max0 ef_construction : Nat) (ml : ℚ)
    (gen : List ℚ) : hnswInv (HNSW.new dim max_elements M M_max0 ef_construction ml gen) := by
  have hempty : ∀ i L,
      friendsAt (getNode (HNSW.new dim max_elements M M_max0 ef_construction ml gen).nodes i) L
        = [] := fun i L => rfl
  refine ⟨⟨?_, ?_, ?_⟩, ?_⟩
  · intro i L
    rw [hempty]
    exact Nat.zero_le _
  · intro i L x hx
    rw [hempty] at hx
    simp at hx
  · intro i L x hx
    rw [hempty] at hx
    simp at hx
  · intro e he
    simp [HNSW.new] at he

theorem buildHNSW_inv : ∀ (inserts : List (List ℚ × Int)) (st : HNSW),
    st.M ≤ st.M_max0 → hnswInv st → hnswInv (buildHNSW st inserts)
  | [], st, _, h => h
  | pi :: rest, st, hM, h => by
    rw [buildHNSW_cons]
    exact buildHNSW_inv rest _ (by rw [addPoint_M, addPoint_M_max0]; exact hM)
      (addPoint_inv st pi.1 pi.2 hM h)

end HnswDB

namespace HnswDB

/-! ### Helper lemmas for the store and CLI theorems -/

theorem rebuildIndex_vectors (db : VectorDB) (ml : ℚ) (gen : List ℚ) :
    (db.rebuildIndex ml gen).vectors = db.vectors := by
  by_cases h : ((db.vectors.map (fun kv => kv.2.vec)).flatten).isEmpty
  · simp [VectorDB.rebuildIndex, h]
  · simp [VectorDB.rebuildIndex, h]

theorem rebuildIndex_dim (db : VectorDB) (ml : ℚ) (gen : List ℚ) :
    (db.rebuildIndex ml gen).dim = db.dim := by
  by_cases h : ((db.vectors.map (fun kv => kv.2.vec)).flatten).isEmpty
  · simp [VectorDB.rebuildIndex, h]
  · simp [VectorDB.rebuildIndex, h]

theorem bindE_ok {α β : Type} (a : α) (f : α → Except String β) :
    (Except.ok a >>= f) = f a := rfl

theorem bindE_error {α β : Type} (e : String) (f : α → Except String β) :
    ((Except.error e : Except String α) >>= f) = Except.error e := rfl

/-! ### The claims -/

/-- C1 (code bug): at the failing input — five collinear points `0,1,2,3,4`
inserted with `M = 3`, `M_max0 = 6`, `ef_construction = 10`, all at layer 0 —
the neighbour-selection loop of `HNSW::addPoint` links the new node 4 to
`[0, 1, 2]`, the three FARTHEST candidates of `W = {0,1,2,3}` (the code pops
the default `std::priority_queue` max-heap, whose top is the farthest entry,
with ties towards the larger id), and omits node 3 even though node 3 is
strictly closer to the inserted point than every selected neighbour.  The
claim (and the source's own SELECT-NEIGHBORS-SIMPLE comment) requires the
`M` closest elements with ties towards the smaller id. -/
theorem c1_select_neighbors_links_farthest :
    friendsAt (getNode c1st.nodes 4) 0 = [0, 1, 2] ∧
    3 ∉ friendsAt (getNode c1st.nodes 4) 0 ∧
    nodeDist c1st.nodes 1 [4] 3 < nodeDist c1st.nodes 1 [4] 0 := by
  with_unfolding_all decide

/-- C2 counterexample: after a sequence of five inserts has completed (no
insert in progress), node 4 records the edge to node 0 at layer 0 but node 0
does not record the reverse edge — `pruneConnections` dropped it one-sidedly
during the fifth insert and nothing restores it. -/
theorem c2_symmetry_violated :
    0 ∈ friendsAt (getNode c2st.nodes 4) 0 ∧ 4 ∉ friendsAt (getNode c2st.nodes 0) 0 := by
  with_unfolding_all decide

/-- C2 (amended): after any finite sequence of inserts completes (with
`M ≤ M_max0`, as in every configuration the repository constructs), every
recorded edge `x ∈ friends_i[L]` is either reciprocated
(`i ∈ friends_x[L]`) or points at a node whose layer-`L` adjacency sits
exactly at the prune bound `M_max(L)` — the one-sided state that
`pruneConnections` leaves behind; full symmetry can fail persistently. -/
theorem c2_symmetric_or_at_prune_bound (dim max_elements M M_max0 ef_construction : Nat)
    (ml : ℚ) (gen : List ℚ) (inserts : List (List ℚ × Int)) (hM : M ≤ M_max0) :
    ∀ i L x, x ∈ friendsAt (getNode (buildHNSW
        (HNSW.new dim max_elements M M_max0 ef_construction ml gen) inserts).nodes i) L →
      i ∈ friendsAt (getNode (buildHNSW
        (HNSW.new dim max_elements M M_max0 ef_construction ml gen) inserts).nodes x) L ∨
      (friendsAt (getNode (buildHNSW
        (HNSW.new dim max_elements M M_max0 ef_construction ml gen) inserts).nodes x) L).length
        = layerMmax M M_max0 L := by
  intro i L x hx
  have hinv := buildHNSW_inv inserts
    (HNSW.new dim max_elements M M_max0 ef_construction ml gen) hM
    (hnswInv_new dim max_elements M M_max0 ef_construction ml gen)
  rcases hinv.1.2.2 i L x hx with h | h
  · exact Or.inl h
  · right
    rw [buildHNSW_M, buildHNSW_M_max0] at h
    exact h

/-- Witness for the amended C2 at the counterexample state: node 4 lists
node 1, and indeed node 1's adjacency sits at the prune bound. -/
theorem c2_symmetric_or_at_prune_bound_witness :
    4 ∈ friendsAt (getNode (buildHNSW (HNSW.new 1 10 3 3 10 (mkRat 91 100) lowGen)
        [([0], 0), ([1], 1), ([2], 2), ([3], 3), ([4], 4)]).nodes 1) 0 ∨
    (friendsAt (getNode (buildHNSW (HNSW.new 1 10 3 3 10 (mkRat 91 100) lowGen)
        [([0], 0), ([1], 1), ([2], 2), ([3], 3), ([4], 4)]).nodes 1) 0).length
      = layerMmax 3 3 0 :=
  c2_symmetric_or_at_prune_bound 1 10 3 3 10 (mkRat 91 100) lowGen
    [([0], 0), ([1], 1), ([2], 2), ([3], 3), ([4], 4)] (by decide) 4 0 1
    (by with_unfolding_all decide)

/-- C3 counterexample: `searchKnn` takes no `ef_search` parameter, and on a
one-node index with `k = 0` it returns one `(distance, label)` pair, not at
most `k = 0`. -/
theorem c3_k_zero_result_nonempty : ¬ ((c3st.searchKnn [5] 0).length ≤ 0) := by
  with_unfolding_all decide

/-- C3 (amended): `searchKnn(q, k)` performs the layer-0 search with
candidate-list width `k` (there is no `ef_search` parameter) and returns the
whole result heap of that search: at most `max k 1` pairs — hence at most
`k` whenever `k ≥ 1`, but one pair is possible for `k = 0` on a nonempty
index. -/
theorem c3_searchKnn_length_le (st : HNSW) (q : List ℚ) (k : Nat) :
    (st.searchKnn q k).length ≤ max k 1 := by
  unfold HNSW.searchKnn
  cases hE : st.enter_point with
  | none => simp
  | some ep0 =>
    simp only [List.length_map]
    exact searchLayer_W_le _ _ _ _ _ _

/-- C4 counterexample: the first node is inserted at layer 0 (so the
pre-insert top layer is 0), the second insert draws layer 3, and the code
creates edges at layer 3 — above the pre-insert top layer — because `L_` is
raised BEFORE the linking loop computes `min(l, L_)`. -/
theorem c4_edge_above_previous_top_layer :
    c4st1.L = 0 ∧ friendsAt (getNode c4st2.nodes 0) 3 = [1] := by
  with_unfolding_all decide

/-- C4 (amended): on an insert into a non-empty index, `L_` is updated to
`max(top_layer, ℓ)` BEFORE the linking loop, which therefore runs from
`min(ℓ, updated L_) = ℓ` down to 0: the new node acquires no edges above its
own drawn layer `ℓ`, but edges can appear above the PRE-insert top layer
whenever `ℓ` exceeds it. -/
theorem c4_top_layer_raised_before_linking (st : HNSW) (p : List ℚ) (label : Int) (e : Nat)
    (hep : st.enter_point = some e) :
    (st.addPoint p label).L = max st.L (getRandomLayer st.ml 0 st.gen).1 ∧
    (∀ L, (getRandomLayer st.ml 0 st.gen).1 < L →
      friendsAt (getNode (st.addPoint p label).nodes st.nodes.length) L = []) := by
  unfold HNSW.addPoint
  rw [hep]
  constructor
  · show (if st.L < (getRandomLayer st.ml 0 st.gen).1 then (getRandomLayer st.ml 0 st.gen).1
      else st.L) = _
    split <;> omega
  · intro L hL
    show friendsAt (getNode (linkLoop st.dim st.M st.M_max0 st.ef_construction p
      st.nodes.length _ (min (getRandomLayer st.ml 0 st.gen).1 _)
      (st.nodes ++ [{ data := p.take st.dim, label := label, friends := [] }]))
      st.nodes.length) L = []
    rw [linkLoop_friendsAt_gt _ _ _ _ _ _ _ _ _
      (Nat.lt_of_le_of_lt (Nat.min_le_left _ _) hL)]
    rw [getNode_append, if_pos rfl]
    rfl

/-- Witness for the amended C4 at the counterexample state: after the layer-3
insert, the new node has no adjacency at layer 4. -/
theorem c4_top_layer_raised_before_linking_witness :
    friendsAt (getNode (c4st1.addPoint [1] 1).nodes c4st1.nodes.length) 4 = [] :=
  (c4_top_layer_raised_before_linking c4st1 [1] 1 0 (by with_unfolding_all decide)).2 4
    (by with_unfolding_all decide)

/-- C5: after every insert of any sequence (each final state of a prefix is
the final state of some insert list, so this quantification covers all
intermediate states), every node's layer-`L` adjacency has at most
`M_max(L)` entries, where `M_max(0) = M_max0` and `M_max(L>0) = M`, under
the precondition `M ≤ M_max0`. -/
theorem c5_degree_bounded (dim max_elements M M_max0 ef_construction : Nat) (ml : ℚ)
    (gen : List ℚ) (inserts : List (List ℚ × Int)) (hM : M ≤ M_max0) :
    ∀ i L, (friendsAt (getNode (buildHNSW
      (HNSW.new dim max_elements M M_max0 ef_construction ml gen) inserts).nodes i) L).length
      ≤ layerMmax M M_max0 L := by
  intro i L
  have hinv := buildHNSW_inv inserts
    (HNSW.new dim max_elements M M_max0 ef_construction ml gen) hM
    (hnswInv_new dim max_elements M M_max0 ef_construction ml gen)
  have h1 := hinv.1.1 i L
  rw [buildHNSW_M, buildHNSW_M_max0] at h1
  exact h1

/-- Witness for C5 at the pruning-heavy five-point build. -/
theorem c5_degree_bounded_witness :
    (friendsAt (getNode (buildHNSW (HNSW.new 1 10 3 3 10 (mkRat 91 100) lowGen)
      [([0], 0), ([1], 1), ([2], 2), ([3], 3), ([4], 4)]).nodes 0) 0).length
      ≤ layerMmax 3 3 0 :=
  c5_degree_bounded 1 10 3 3 10 (mkRat 91 100) lowGen
    [([0], 0), ([1], 1), ([2], 2), ([3], 3), ([4], 4)] (by decide) 0 0

/-- C6: a wrong-length vector makes the store's insert (`VectorDB::addVector`)
and `VectorDB::search` fail with the caller-visible dimension-mismatch
errors; the `Except` results carry no mutated state (both functions check the
length before touching anything).  The core `HNSW::addPoint` receives a raw
`float*` and cannot observe a length, so the repository performs this check
at the store boundary. -/
theorem c6_dimension_mismatch_errors (db : VectorDB) (vec q : List ℚ) (metadata : String)
    (k : Nat) (hi : HNSW) (h1 : vec.length ≠ db.dim) (h2 : db.index = some hi)
    (h3 : q.length ≠ db.dim) :
    db.addVector vec metadata = Except.error vecDimMismatchMsg ∧
    db.search q k = Except.error queryDimMismatchMsg := by
  constructor
  · unfold VectorDB.addVector
    rw [if_pos h1]
  · unfold VectorDB.search
    rw [h2]
    show (if q.length ≠ db.dim then Except.error queryDimMismatchMsg else _) = _
    rw [if_pos h3]

/-- Witness for C6 on a dimension-2 store with a built index and length-1
inputs. -/
theorem c6_dimension_mismatch_errors_witness :
    c6db.addVector [0] emptyArg = Except.error vecDimMismatchMsg ∧
    c6db.search [0] 1 = Except.error queryDimMismatchMsg :=
  c6_dimension_mismatch_errors c6db [0] [0] emptyArg 1 (HNSW.new 2 1 16 200 200 0 [])
    (by decide) rfl (by decide)

/-- C7: two indices constructed with the same parameters, the same `ml`, and
the same random stream, receiving the same inserts in the same order, have
identical adjacency lists at every node and layer, and identical `searchKnn`
results for every query — the embedding is a pure function of these inputs,
which is exactly what the C++ code guarantees: its only nondeterminism
source is the default-seeded `std::default_random_engine`. -/
theorem c7_build_deterministic
    (dim1 maxe1 M1 Mm01 efc1 : Nat) (ml1 : ℚ) (gen1 : List ℚ) (ins1 : List (List ℚ × Int))
    (dim2 maxe2 M2 Mm02 efc2 : Nat) (ml2 : ℚ) (gen2 : List ℚ) (ins2 : List (List ℚ × Int))
    (hdim : dim1 = dim2) (hmaxe : maxe1 = maxe2) (hM : M1 = M2) (hMm0 : Mm01 = Mm02)
    (hefc : efc1 = efc2) (hml : ml1 = ml2) (hgen : gen1 = gen2) (hins : ins1 = ins2) :
    (∀ i L, friendsAt (getNode (buildHNSW
        (HNSW.new dim1 maxe1 M1 Mm01 efc1 ml1 gen1) ins1).nodes i) L
      = friendsAt (getNode (buildHNSW
        (HNSW.new dim2 maxe2 M2 Mm02 efc2 ml2 gen2) ins2).nodes i) L) ∧
    (∀ q k, (buildHNSW (HNSW.new dim1 maxe1 M1 Mm01 efc1 ml1 gen1) ins1).searchKnn q k
      = (buildHNSW (HNSW.new dim2 maxe2 M2 Mm02 efc2 ml2 gen2) ins2).searchKnn q k) := by
  subst hdim
  subst hmaxe
  subst hM
  subst hMm0
  subst hefc
  subst hml
  subst hgen
  subst hins
  exact ⟨fun i L => rfl, fun q k => rfl⟩

/-- Witness for C7: equal builds at a concrete instantiation. -/
theorem c7_build_deterministic_witness :
    friendsAt (getNode (buildHNSW (HNSW.new 1 2 3 6 10 0 []) [([5], 7)]).nodes 0) 0
      = friendsAt (getNode (buildHNSW (HNSW.new 1 2 3 6 10 0 []) [([5], 7)]).nodes 0) 0 ∧
    (buildHNSW (HNSW.new 1 2 3 6 10 0 []) [([5], 7)]).searchKnn [5] 1
      = (buildHNSW (HNSW.new 1 2 3 6 10 0 []) [([5], 7)]).searchKnn [5] 1 :=
  ⟨(c7_build_deterministic 1 2 3 6 10 0 [] [([5], 7)] 1 2 3 6 10 0 [] [([5], 7)]
      rfl rfl rfl rfl rfl rfl rfl rfl).1 0 0,
   (c7_build_deterministic 1 2 3 6 10 0 [] [([5], 7)] 1 2 3 6 10 0 [] [([5], 7)]
      rfl rfl rfl rfl rfl rfl rfl rfl).2 [5] 1⟩

/-- C8: `searchKnn` on an index containing zero nodes returns the empty
result rather than raising an error: a built index with no nodes arose from
zero inserts (every `addPoint` appends a node), and then `enter_point_` is
still `-1`, which short-circuits the search. -/
theorem c8_empty_index_search_empty (dim max_elements M M_max0 ef_construction : Nat)
    (ml : ℚ) (gen : List ℚ) (inserts : List (List ℚ × Int)) (q : List ℚ) (k : Nat)
    (h : (buildHNSW (HNSW.new dim max_elements M M_max0 ef_construction ml gen)
      inserts).nodes = []) :
    (buildHNSW (HNSW.new dim max_elements M M_max0 ef_construction ml gen)
      inserts).searchKnn q k = [] := by
  have hnil : inserts = [] := by
    have hlen := buildHNSW_nodes_length inserts
      (HNSW.new dim max_elements M M_max0 ef_construction ml gen)
    rw [h] at hlen
    have h0 : (HNSW.new dim max_elements M M_max0 ef_construction ml gen).nodes.length = 0 :=
      rfl
    rw [h0] at hlen
    simp only [List.length_nil] at hlen
    exact List.length_eq_zero.1 (by omega)
  subst hnil
  rfl

/-- Witness for C8 at the nominal empty-search scenario of the spec
(`d = 4, M = 16, M_max0 = 32, ef_c = 200`, query `[0,0,0,0]`, `k = 5`). -/
theorem c8_empty_index_search_empty_witness :
    (buildHNSW (HNSW.new 4 1 16 32 200 0 []) []).searchKnn [0, 0, 0, 0] 5 = [] :=
  c8_empty_index_search_empty 4 1 16 32 200 0 [] [] [0, 0, 0, 0] 5 rfl

end HnswDB

namespace HnswDB

/-- C9 counterexample: `get` with an id that is not in the store prints a
not-found message to `cerr` but falls through to `return 0`, so the process
exits 0 where the claim demands exit 1. -/
theorem c9_get_not_found_exits_zero :
    cliMain 0 [] c9fs [emptyArg, emptyArg, cmdGet, idArg] = 0 ∧
    cliMain 0 [] c9fs [emptyArg, emptyArg, cmdGet, idArg] ≠ 1 := by
  with_unfolding_all decide

/-- C9 (amended): the CLI exits 1 on usage errors (fewer than three
arguments), unknown commands, a corrupt database file, and vector
parse/dimension errors, and exits 0 on success — but a `get` or `delete`
whose id is not found prints an error message and still exits 0. -/
theorem c9_exit_codes (ml : ℚ) (gen : List ℚ) :
    (∀ fs argv, argv.length < 3 → cliMain ml gen fs argv = 1) ∧
    (∀ fs p dbp c rest, c ≠ cmdInit → c ≠ cmdAdd → c ≠ cmdGet → c ≠ cmdSearch →
      c ≠ cmdRebuild → c ≠ cmdDelete → c ≠ cmdUpdate →
      cliMain ml gen fs (p :: dbp :: c :: rest) = 1) ∧
    (∀ p dbp s, cliMain ml gen FileState.corrupt [p, dbp, cmdGet, s] = 1) ∧
    (∀ p dbp d n vs vstr mstr e, parseVector vstr d = Except.error e →
      cliMain ml gen (FileState.good d n vs) [p, dbp, cmdAdd, vstr, mstr] = 1) ∧
    (∀ p dbp s id d n vs, cppStoll s = some id → mapLookup vs id = none →
      cliMain ml gen (FileState.good d n vs) [p, dbp, cmdGet, s] = 0) ∧
    (∀ p dbp s id d n vs, cppStoll s = some id → mapLookup vs id = none →
      cliMain ml gen (FileState.good d n vs) [p, dbp, cmdDelete, s] = 0) ∧
    (∀ p dbp s id d n vs vstr mstr vec m2, cppStoll s = some id →
      parseVector vstr d = Except.ok vec → jsonParse mstr = Except.ok m2 →
      mapLookup vs id = none →
      cliMain ml gen (FileState.good d n vs) [p, dbp, cmdUpdate, s, vstr, mstr] = 0) ∧
    (∀ p dbp s d, cppStoll s = some d →
      cliMain ml gen FileState.absent [p, dbp, cmdInit, s] = 0) := by
  refine ⟨?_, ?_, ?_, ?_, ?_, ?_, ?_, ?_⟩
  · intro fs argv h
    unfold cliMain
    rw [if_pos h]
  · intro fs p dbp c rest h1 h2 h3 h4 h5 h6 h7
    unfold cliMain
    rw [if_neg (by simp)]
    unfold cliRun
    simp only [List.getD_cons_succ, List.getD_cons_zero]
    rw [if_neg h1, if_neg h2, if_neg h3, if_neg h4, if_neg h5, if_neg h6, if_neg h7]
  · intro p dbp s
    unfold cliMain
    rw [if_neg (by simp)]
    unfold cliRun
    simp [VectorDB.load, cmdGet, cmdInit, cmdAdd, bindE_ok, bindE_error]
  · intro p dbp d n vs vstr mstr e hparse
    unfold cliMain
    rw [if_neg (by simp)]
    unfold cliRun
    simp [VectorDB.load, cmdAdd, cmdInit, rebuildIndex_dim, hparse, bindE_ok, bindE_error]
  · intro p dbp s id d n vs h1 h2
    unfold cliMain
    rw [if_neg (by simp)]
    unfold cliRun
    simp [VectorDB.load, cmdGet, cmdInit, cmdAdd, h1, VectorDB.getVector,
      rebuildIndex_vectors, h2, bindE_ok, bindE_error]
  · intro p dbp s id d n vs h1 h2
    unfold cliMain
    rw [if_neg (by simp)]
    unfold cliRun
    simp [VectorDB.load, cmdDelete, cmdInit, cmdAdd, cmdGet, cmdSearch, cmdRebuild, h1,
      VectorDB.deleteVector, rebuildIndex_vectors, h2, bindE_ok, bindE_error]
  · intro p dbp s id d n vs vstr mstr vec m2 h1 hparse hjson h2
    unfold cliMain
    rw [if_neg (by simp)]
    unfold cliRun
    simp [VectorDB.load, cmdUpdate, cmdInit, cmdAdd, cmdGet, cmdSearch, cmdRebuild,
      cmdDelete, h1, rebuildIndex_dim, hparse, hjson, VectorDB.updateVector,
      rebuildIndex_vectors, h2, bindE_ok, bindE_error]
  · intro p dbp s d h1
    unfold cliMain
    rw [if_neg (by simp)]
    unfold cliRun
    simp [VectorDB.init, cmdInit, h1, bindE_ok, bindE_error]

/-- Witness for the amended C9: a usage error exits 1 and a `delete` of a
missing id exits 0. -/
theorem c9_exit_codes_witness :
    cliMain 0 [] FileState.absent [emptyArg] = 1 ∧
    cliMain 0 [] c9fs [emptyArg, emptyArg, cmdDelete, idArg] = 0 :=
  ⟨(c9_exit_codes 0 []).1 FileState.absent [emptyArg] (by decide),
   (c9_exit_codes 0 []).2.2.2.2.2.1 emptyArg emptyArg idArg 5 2 1 []
     (by with_unfolding_all decide) rfl⟩

/-- C10: `VectorDB::rebuildIndex` always installs an index built as
`HNSW(dim, max(count, 1), 16, 200)` — four positional arguments, so `200`
binds to `M_max0` and `ef_construction` keeps its default `200`; in
particular the store's layer-0 degree bound `M_max(0)` is `200`, not
`2·M = 32`. -/
theorem c10_rebuild_constructor_params (db : VectorDB) (ml : ℚ) (gen : List ℚ) :
    ∃ h, (db.rebuildIndex ml gen).index = some h ∧ h.M = 16 ∧ h.M_max0 = 200 ∧
      h.ef_construction = 200 ∧ layerMmax h.M h.M_max0 0 = 200 := by
  by_cases hc : ((db.vectors.map (fun kv => kv.2.vec)).flatten).isEmpty
  · exact ⟨HNSW.new db.dim (max db.vectors.length 1) 16 200 200 ml gen,
      by simp [VectorDB.rebuildIndex, hc], rfl, rfl, rfl, rfl⟩
  · have hP := foldl_invariant
      (fun (h : HNSW) (i : Nat) => h.addPoint
        ((((db.vectors.map (fun kv => kv.2.vec)).flatten).drop (i * db.dim)).take db.dim)
        (Int.ofNat i))
      (fun h => h.M = 16 ∧ h.M_max0 = 200 ∧ h.ef_construction = 200)
      (List.range db.vectors.length)
      (HNSW.new db.dim (max db.vectors.length 1) 16 200 200 ml gen)
      ⟨rfl, rfl, rfl⟩
      (fun b a _ hb => by
        dsimp only
        rw [addPoint_M, addPoint_M_max0, addPoint_ef_construction]
        exact hb)
    refine ⟨_, by simp [VectorDB.rebuildIndex, hc], hP.1, hP.2.1, hP.2.2, ?_⟩
    rw [hP.1, hP.2.1]
    rfl

end HnswDB
